import Mathlib

/-!
# godfs client routing: storage selection, query, upload and download

A shallow embedding of `src/libclient/service.go` (package `libclient`) and of
`authenticationHandler` in `svc/common_tcp_handler.go` (package `svc`).

Conventions of the embedding.

* A Go `*list.List` of storage members is a `List StorageDO`; a nil list
  pointer is `none`.
* `rand.Intn` is a function `Nat → Nat`; the generator contract
  `0 ≤ rand.Intn n < n` is a hypothesis where a statement needs it.
* Everything the functions obtain from other packages (sockets, the bridge
  library, the pool, the local file system, JSON decoding) is an explicit
  argument: a record of outcomes. The functions return their result together
  with the list of the external calls they made, in program order.
* Go `string` is `String`, Go `int`/`int64` is `Int`, lengths are `Nat`.
-/

namespace libclient

/-! ## Data model -/

/-- Errors of the client. The first two are the package level sentinels of
`service.go`; the next two are the sentinels of package `bridge` that
`download` returns from its response handler; `EOF` is `io.EOF`; `New` is
`errors.New` and any error value produced by a library. -/
inductive Error where
  | NO_TRACKER_ERROR
  | NO_STORAGE_ERROR
  | FILE_NOT_FOUND_ERROR
  | DOWNLOAD_FILE_ERROR
  | EOF
  | New (text : String)
  deriving DecidableEq, Repr

/-- Modelled from the spec: the texts of the `bridge` sentinels are not in the
sources; the two `libclient` texts are those of `service.go`. -/
def Error.Error : Error → String
  | .NO_TRACKER_ERROR => "no tracker server available"
  | .NO_STORAGE_ERROR => "no storage server available"
  | .FILE_NOT_FOUND_ERROR => "file not found"
  | .DOWNLOAD_FILE_ERROR => "error download file"
  | .EOF => "EOF"
  | .New text => text

/-- Modelled from the spec: status code OK of package `bridge` (section 6). The
constants of that package are not in the sources; the three used by the client
are distinct integers and nothing else about their values matters. -/
def STATUS_OK : Int := 0

/-- Modelled from the spec: status code INTERNAL_ERROR of package `bridge`. -/
def STATUS_INTERNAL_SERVER_ERROR : Int := 3

/-- Modelled from the spec: status code NOT_FOUND of package `bridge`. -/
def STATUS_NOT_FOUND : Int := 4

/-- The fields of `app.StorageDO` (called `bridge.ExpireMember` in `download`)
that the client reads. -/
structure StorageDO where
  Uuid : String
  Group : String
  InstanceId : String
  ReadOnly : Bool
  AdvertiseAddr : String := ""
  Port : Int := 0
  deriving DecidableEq, Repr

/-- The `bridge.File` descriptor returned by a tracker. -/
structure File where
  Group : String
  Instance : String
  Md5 : String
  PartNum : Int
  deriving DecidableEq, Repr

/-! ## Storage selector -/

/-- `containsMember`: whether the list holds an entry with the UUID of `mem`;
a nil list holds nothing. -/
def containsMember (mem : StorageDO) (excludes : Option (List StorageDO)) : Bool :=
  match excludes with
  | none => false
  | some l => l.any (fun e => e.Uuid == mem.Uuid)

/-- The body of the first loop of `selectStorageServer`: whether member `b` is
pushed to `pick`. -/
def picks (group instanceId : String) (excludes : Option (List StorageDO)) (upload : Bool)
    (b : StorageDO) : Bool :=
  if containsMember b excludes || (upload && b.ReadOnly) then false
  else
    let match1 := decide (group = "" ∨ group = b.Group)
    let match2 := decide (instanceId = "" ∨ instanceId = b.InstanceId)
    match1 && match2

/-- The second loop of `selectStorageServer`: the element at position `rd`,
counting from `index`, or nil when the list ends first. -/
def pickAt (rd : Nat) : List StorageDO → Nat → Option StorageDO
  | [], _ => none
  | b :: rest, index => if index = rd then some b else pickAt rd rest (index + 1)

/-- `selectStorageServer` over the registry snapshot `GroupMembers`. -/
def selectStorageServer (GroupMembers : List StorageDO) (rand : Nat → Nat)
    (group instanceId : String) (excludes : Option (List StorageDO)) (upload : Bool) :
    Option StorageDO :=
  let pick := GroupMembers.filter (picks group instanceId excludes upload)
  if pick.length = 0 then none
  else
    let rd := rand pick.length
    pickAt rd pick 0

/-- The four conditions of a candidate, as the specification words them. -/
def Eligible (group instanceId : String) (excludes : Option (List StorageDO)) (upload : Bool)
    (m : StorageDO) : Prop :=
  (∀ e ∈ excludes.getD [], e.Uuid ≠ m.Uuid) ∧
  (upload = true → m.ReadOnly = false) ∧
  (m.Group = group ∨ group = "") ∧
  (m.InstanceId = instanceId ∨ instanceId = "")


/-! ## The bridge exchange -/

/-- A connection checked out of the pool, named by a number. -/
abbrev Bridge := Nat

/-- The `bridge.Meta` handed to a response handler: the error field, the
outcome of `json.Unmarshal` on `MetaBody` for the response type of the
operation, and the announced body length. -/
structure Meta (α : Type) where
  Err : Option Error
  MetaBody : Except Error α
  BodyLength : Nat

/-- What the peer and the socket do on a `ReceiveResponse`: the read of the
frame fails before the handler runs, or a frame arrives. -/
inductive Received (α : Type) where
  | broken (e : Error)
  | frame (response : Meta α)

/-- Modelled from the spec: `ReceiveResponse` of package `bridge` (section 4.2),
not in the sources: it invokes the handler with the parsed response and returns
what the handler returns; a failed read returns the error and leaves the
variables captured by the handler (`σ`) untouched. -/
def ReceiveResponse {α σ : Type} (r : Received α)
    (handler : Meta α → σ → Option Error × σ) (captured : σ) : Option Error × σ :=
  match r with
  | .broken e => (some e, captured)
  | .frame response => handler response captured

/-- `strconv.Itoa`. -/
def Itoa (n : Int) : String := toString n

/-! ## QueryFile -/

/-- The `bridge.OperationQueryFileResponse`. -/
structure OperationQueryFileResponse where
  Status : Int
  File : Option File

/-- One request and response exchange on a tracker bridge. -/
structure TrackerExchange where
  SendRequest : Option Error
  Receive : Received OperationQueryFileResponse

/-- A tracker instance: what its bridge does when asked about `pathOrMd5`. -/
abbrev TrackerInstance := String → TrackerExchange

/-- The response handler of `QueryFile`; the captured variable is `result`. -/
def queryFileHandler (response : Meta OperationQueryFileResponse) (result : Option File) :
    Option Error × Option File :=
  match response.Err with
  | some e => (some e, result)
  | none =>
    match response.MetaBody with
    | .error e4 => (some e4, result)
    | .ok queryResponse =>
      if queryResponse.Status ≠ STATUS_OK ∧ queryResponse.Status ≠ STATUS_NOT_FOUND then
        (some (.New ("error connect to server, server response status:" ++
          Itoa queryResponse.Status)), result)
      else (none, queryResponse.File)

/-- The loop of `QueryFile` from element `ele` on, with the current `result`. -/
def queryFileLoop (pathOrMd5 : String) :
    List TrackerInstance → Option File → Option File × Option Error
  | [], result => (result, none)
  | ele :: next, result =>
    let connBridge := ele pathOrMd5
    match connBridge.SendRequest with
    | some _ => queryFileLoop pathOrMd5 next result
    | none =>
      match ReceiveResponse connBridge.Receive queryFileHandler result with
      | (some _, result) => queryFileLoop pathOrMd5 next result
      | (none, result) =>
        match result with
        | some f => (some f, none)
        | none => queryFileLoop pathOrMd5 next result

/-- `Client.QueryFile` over the tracker instances of the maintainer. -/
def QueryFile (TrackerInstances : List TrackerInstance) (pathOrMd5 : String) :
    Option File × Option Error :=
  queryFileLoop pathOrMd5 TrackerInstances none

/-- The specification's reading of one exchange: the file it yields when the
send succeeds and the response is a decodable OK or NOT_FOUND carrying a file;
none when the instance is skipped or carries no file. -/
def exchangeFile (x : TrackerExchange) : Option File :=
  match x.SendRequest, x.Receive with
  | none, .frame ⟨none, .ok r, _⟩ =>
    if r.Status = STATUS_OK ∨ r.Status = STATUS_NOT_FOUND then r.File else none
  | _, _ => none

/-- An exchange the loop of `QueryFile` skips: the send fails, or the response
fails (read error, response error, undecodable metadata, or a status other
than OK and NOT_FOUND). -/
def exchangeFails (x : TrackerExchange) : Prop :=
  x.SendRequest ≠ none ∨ (∃ e, x.Receive = .broken e) ∨
    (∃ r, x.Receive = .frame r ∧
      (r.Err ≠ none ∨ (∃ e, r.MetaBody = .error e) ∨
        (∃ q, r.MetaBody = .ok q ∧ q.Status ≠ STATUS_OK ∧ q.Status ≠ STATUS_NOT_FOUND)))

/-! ## Calls on storage servers -/

/-- The `bridgev2.UploadFileMeta`. -/
structure UploadFileMeta where
  FileSize : Int
  FileExt : String
  Md5 : String
  deriving DecidableEq, Repr

/-- The calls the client makes on the selector, on storage servers and on the
connection pool, with what they returned. -/
inductive Event where
  | Select (group instanceId : String) (excludes : List StorageDO) (upload : Bool)
      (result : Option StorageDO)
  | Connect (server : StorageDO) (err : Option Error)
  | Validate (server : StorageDO) (err : Option Error)
  | UploadFile (server : StorageDO) (uploadMeta : UploadFileMeta)
  | Destroy (server : StorageDO)
  | Close (server : StorageDO)
  | GetConnBridge (mem : StorageDO) (bridge : Option Bridge)
  | SendRequest (connBridge : Bridge) (path : String) (start offset : Int) (err : Option Error)
  | ReceiveResponse (connBridge : Bridge) (err : Option Error)
  | WriterHandler (connBridge : Bridge) (fileLen consumed : Nat) (err : Option Error)
  | ReturnConnBridge (mem : StorageDO) (connBridge : Bridge)
  | ReturnBrokenConnBridge (mem : StorageDO) (connBridge : Bridge)
  deriving DecidableEq, Repr

/-! ## Upload -/

/-- One `fi.Read(buff)` of the body writer. -/
structure ReadResult where
  len5 : Nat
  e4 : Option Error

/-- One `manager.Conn.Write` of the body writer. -/
structure WriteResult where
  len3 : Nat
  e5 : Option Error

/-- The file opened by `file.GetFile`: its name, its size, and the successive
reads of it paired with what the socket does with each chunk; after the last
pair a read returns `0, io.EOF`. -/
structure LocalFile where
  Name : String
  Size : Int
  chunks : List (ReadResult × WriteResult)

/-- The body writer that `Upload` passes to `UploadFile`: the error it returns
and the value it leaves in `destroy`. -/
def uploadBody : List (ReadResult × WriteResult) → Option Error × Bool
  | [] => (none, false)
  | (r, w) :: rest =>
    if r.e4 ≠ none ∧ r.e4 ≠ some .EOF then (r.e4, false)
    else if r.len5 > 0 then
      if w.e5 ≠ none then (w.e5, true)
      else if w.len3 ≠ r.len5 then (some (.New "could not write enough bytes"), true)
      else uploadBody rest
    else if r.e4 ≠ some .EOF then (r.e4, false)
    else (none, false)

/-- What the outside does on the `k`-th pass of the select loop of `Upload`. -/
structure UploadAttempt where
  rand : Nat → Nat
  Connect : Option Error
  Validate : Option Error

/-- Everything `Upload` obtains from outside. `UploadFile` is the call of
package `bridgev2`: from the request and the value returned by the body writer
to the `Path` of the response and the error. -/
structure UploadEnv where
  GetFile : String → Except Error LocalFile
  GetFileMd5 : String → Except Error String
  GetFileExt : String → String
  TrackerInstances : List TrackerInstance
  GroupMembers : List StorageDO
  attempt : Nat → UploadAttempt
  UploadFile : UploadFileMeta → Option Error → String × Option Error

/-- The result of a call of `Upload`: the two returned values, the calls made
on the selector and on storage servers, and the exclusion list at return. -/
structure UploadRun where
  path : String
  err : Option Error
  log : List Event
  excludes : List StorageDO
  deriving DecidableEq, Repr

/-- The select loop of `Upload` (lines 88 to 116) at pass `k` with the current
exclusion list: the calls made, the exclusion list at exit, and the member the
loop breaks with (none when it returns `NO_STORAGE_ERROR`). The first argument
bounds the number of passes; `none` means the bound was reached. -/
def uploadSelect (env : UploadEnv) (group : String) :
    Nat → Nat → List StorageDO → Option (List Event × List StorageDO × Option StorageDO)
  | 0, _, _ => none
  | fuel + 1, k, excludes =>
    let member :=
      selectStorageServer env.GroupMembers (env.attempt k).rand group "" (some excludes) true
    match member with
    | none => some ([.Select group "" excludes true none], excludes, none)
    | some m =>
      match (env.attempt k).Connect with
      | some e1 =>
        (uploadSelect env group fuel (k + 1) (excludes ++ [m])).map fun r =>
          ([.Select group "" excludes true (some m), .Connect m (some e1)] ++ r.1, r.2)
      | none =>
        match (env.attempt k).Validate with
        | some e2 =>
          (uploadSelect env group fuel (k + 1) (excludes ++ [m])).map fun r =>
            ([.Select group "" excludes true (some m), .Connect m none,
              .Validate m (some e2)] ++ r.1, r.2)
        | none =>
          some ([.Select group "" excludes true (some m), .Connect m none, .Validate m none],
            excludes, some m)

/-- `Client.Upload`. The start time only feeds the progress display. -/
def Upload (env : UploadEnv) (path group : String) (skipCheck : Bool) : Option UploadRun :=
  match env.GetFile path with
  | .error e =>
    some ⟨"", some (.New ("error upload file " ++ path ++ " due to " ++ e.Error)), [], []⟩
  | .ok fi =>
    let precheck : Option File × String :=
      if !skipCheck then
        match env.GetFileMd5 path with
        | .ok md5 => ((QueryFile env.TrackerInstances md5).1, md5)
        | .error _ => (none, "")
      else (none, "")
    match precheck with
    | (some qfi, _) =>
      let sm := if qfi.PartNum > 1 then "M" else "S"
      some ⟨qfi.Group ++ "/" ++ qfi.Instance ++ "/" ++ sm ++ "/" ++ qfi.Md5, none, [], []⟩
    | (none, fileMd5) =>
      match uploadSelect env group (env.GroupMembers.length + 1) 0 [] with
      | none => none
      | some (log, excludes, none) => some ⟨"", some .NO_STORAGE_ERROR, log, excludes⟩
      | some (log, excludes, some member) =>
        let uploadMeta : UploadFileMeta :=
          { FileSize := fi.Size, FileExt := env.GetFileExt fi.Name, Md5 := fileMd5 }
        let body := uploadBody fi.chunks
        let res := env.UploadFile uploadMeta body.1
        let destroy := body.2
        some ⟨res.1, res.2,
          log ++ [.UploadFile member uploadMeta,
            if destroy then .Destroy member else .Close member], excludes⟩

/-- The environment of the witness of C2: one tracker that knows the file as
a three part file, and no storage member. -/
def precheckEnv : UploadEnv where
  GetFile := fun _ => .ok ⟨"a.bin", 5, []⟩
  GetFileMd5 := fun _ => .ok "0cc175b9c0f1b6a831c399e269772661"
  GetFileExt := fun _ => "bin"
  TrackerInstances :=
    [fun md5 => ⟨none, .frame ⟨none, .ok ⟨STATUS_OK, some ⟨"g1", "i1", md5, 3⟩⟩, 0⟩⟩]
  GroupMembers := []
  attempt := fun _ => ⟨fun _ => 0, none, none⟩
  UploadFile := fun _ e => ("", e)

/-! ## Download -/

/-- The compiled `app.PATH_REGEX`, a constant that is not in the sources, as
the two uses the client makes of it. -/
structure PathRegex where
  Match : String → Bool
  ReplaceAllString : String → String → String

/-- The `bridge.OperationDownloadFileResponse`. -/
structure OperationDownloadFileResponse where
  Status : Int

/-- What a call of the caller's `writerHandler` does: the number of body bytes
it reads from the connection and the error it returns. -/
structure HandlerResult where
  consumed : Nat
  err : Option Error

/-- The type of the caller's `writerHandler(realPath, fileLen, reader)`; the
reader is the connection of the bridge. -/
abbrev WriterHandler := String → Nat → Bridge → HandlerResult

/-- What the outside does on the `k`-th attempt of a download: the generator,
the pool, the send and the receive. -/
structure DownloadAttempt where
  rand : Nat → Nat
  GetConnBridge : StorageDO → Except Error Bridge
  SendRequest : Option Error
  Receive : Received OperationDownloadFileResponse

/-- Everything `download` obtains from outside. -/
structure DownloadEnv where
  PATH_REGEX : PathRegex
  GroupMembers : List StorageDO
  attempt : Nat → DownloadAttempt

/-- The local `group` of `download`: the first group of the path pattern. -/
def pathGroup (env : DownloadEnv) (path : String) : String :=
  env.PATH_REGEX.ReplaceAllString path "${1}"

/-- The local `instanceId` of `download`: the second group of the path pattern. -/
def pathInstance (env : DownloadEnv) (path : String) : String :=
  env.PATH_REGEX.ReplaceAllString path "${2}"

/-- The response handler of `download`; the captured variable is
`responseCode`. The second component of the state records the call of
`writerHandler`, when there is one: the `fileLen` passed and what it did. -/
def downloadHandler (writerHandler : WriterHandler) (path : String) (connBridge : Bridge)
    (response : Meta OperationDownloadFileResponse)
    (captured : Int × Option (Nat × HandlerResult)) :
    Option Error × (Int × Option (Nat × HandlerResult)) :=
  match response.Err with
  | some e => (some e, captured)
  | none =>
    match response.MetaBody with
    | .error e4 => (some e4, captured)
    | .ok downloadResponse =>
      let responseCode := downloadResponse.Status
      if downloadResponse.Status = STATUS_NOT_FOUND then
        (some .FILE_NOT_FOUND_ERROR, (responseCode, none))
      else if downloadResponse.Status ≠ STATUS_OK then
        (some .DOWNLOAD_FILE_ERROR, (responseCode, none))
      else
        let w := writerHandler path response.BodyLength connBridge
        (w.err, (responseCode, some (response.BodyLength, w)))

/-- The variables of `download` that change from one pass to the next: the
number of members selected so far, `fromSrc`, and the exclusion list. -/
structure DownloadState where
  attempt : Nat
  fromSrc : Bool
  excludes : List StorageDO
  deriving DecidableEq, Repr

/-- How a pass ends: `download` returns, or it goes on (the `continue` of the
loop, or the recursive call) with new values of the variables. -/
inductive Next where
  | ret (err : Option Error) (excludes : List StorageDO)
  | again (s : DownloadState)
  deriving DecidableEq, Repr

/-- One pass of `download`: one pass through the body of its `for` loop and,
when the loop breaks, the rest of the function up to its return or its
recursive call. Yields the calls made and how the pass ends. -/
def downloadStep (env : DownloadEnv) (writerHandler : WriterHandler)
    (path : String) (start offset : Int) (s : DownloadState) : List Event × Next :=
  let group := pathGroup env path
  let instanceId := pathInstance env path
  let w := env.attempt s.attempt
  let filter := if s.fromSrc then instanceId else ""
  let mem := selectStorageServer env.GroupMembers w.rand group filter (some s.excludes) false
  let selected := Event.Select group filter s.excludes false mem
  match mem with
  | none =>
    if !s.fromSrc then ([selected], .ret (some .NO_STORAGE_ERROR) s.excludes)
    else ([selected], .again { s with fromSrc := false })
  | some mem =>
    let excludes := s.excludes ++ [mem]
    match w.GetConnBridge mem with
    | .error _ =>
      ([selected, .GetConnBridge mem none],
        .again ⟨s.attempt + 1, s.fromSrc, excludes ++ [mem]⟩)
    | .ok connBridge =>
      let acquired := [selected, .GetConnBridge mem (some connBridge)]
      match w.SendRequest with
      | some e2 =>
        (acquired ++ [.SendRequest connBridge path start offset (some e2),
            .ReturnBrokenConnBridge mem connBridge],
          .again ⟨s.attempt + 1, false, excludes⟩)
      | none =>
        let sent := acquired ++ [.SendRequest connBridge path start offset none]
        match ReceiveResponse w.Receive (downloadHandler writerHandler path connBridge)
            (STATUS_INTERNAL_SERVER_ERROR, none) with
        | (e3, responseCode, written) =>
          let received := sent ++
            (match written with
              | some (fileLen, h) => [.WriterHandler connBridge fileLen h.consumed h.err]
              | none => []) ++ [.ReceiveResponse connBridge e3]
          match e3 with
          | some _ =>
            if responseCode = STATUS_NOT_FOUND ∨ responseCode = STATUS_OK then
              (received ++ [.ReturnConnBridge mem connBridge],
                .again ⟨s.attempt + 1, false, excludes⟩)
            else
              (received ++ [.ReturnBrokenConnBridge mem connBridge],
                .again ⟨s.attempt + 1, false, excludes⟩)
          | none => (received ++ [.ReturnConnBridge mem connBridge], .ret none excludes)

/-- The result of a call of `download`: the returned error, the calls made in
program order, and the exclusion list at return. -/
structure DownloadRun where
  err : Option Error
  log : List Event
  excludes : List StorageDO
  deriving DecidableEq, Repr

/-- Passes of `download` from state `s` until it returns; the first argument
bounds the number of passes and `none` means the bound was reached. -/
def downloadPasses (env : DownloadEnv) (writerHandler : WriterHandler)
    (path : String) (start offset : Int) : Nat → DownloadState → Option DownloadRun
  | 0, _ => none
  | fuel + 1, s =>
    match downloadStep env writerHandler path start offset s with
    | (events, .ret err excludes) => some ⟨err, events, excludes⟩
    | (events, .again s') =>
      (downloadPasses env writerHandler path start offset fuel s').map fun r =>
        { r with log := events ++ r.log }

/-- `download(path, start, offset, fromSrc, excludes, client, writerHandler)`.
At most one pass per registry member, one for the fallback from the source
instance and one to find the registry exhausted. -/
def download (env : DownloadEnv) (path : String) (start offset : Int) (fromSrc : Bool)
    (excludes : List StorageDO) (writerHandler : WriterHandler) : Option DownloadRun :=
  downloadPasses env writerHandler path start offset (env.GroupMembers.length + 2)
    ⟨0, fromSrc, excludes⟩

/-- `unicode.IsSpace`, the characters `strings.TrimSpace` strips. -/
def IsSpace (c : Char) : Bool :=
  let n := c.toNat
  (9 ≤ n ∧ n ≤ 13) ∨ n = 0x20 ∨ n = 0x85 ∨ n = 0xA0 ∨ n = 0x1680 ∨
    (0x2000 ≤ n ∧ n ≤ 0x200A) ∨ n = 0x2028 ∨ n = 0x2029 ∨ n = 0x202F ∨ n = 0x205F ∨
    n = 0x3000

/-- `strings.TrimSpace`. -/
def TrimSpace (s : String) : String :=
  String.mk (((s.data.dropWhile IsSpace).reverse.dropWhile IsSpace).reverse)

/-- `Client.DownloadFile`. -/
def DownloadFile (env : DownloadEnv) (path : String) (start offset : Int)
    (writerHandler : WriterHandler) : Option DownloadRun :=
  let path := TrimSpace path
  let path := if path.data.head? ≠ some '/' then "/" ++ path else path
  if !env.PATH_REGEX.Match path then
    some ⟨some (.New "file path format error"), [], []⟩
  else download env path start offset false [] writerHandler

/-- The calls of the selector in a log: the exclusion list each ran with and
the member it returned. -/
def selects : List Event → List (List StorageDO × Option StorageDO)
  | [] => []
  | .Select _ _ excludes _ result :: rest => (excludes, result) :: selects rest
  | _ :: rest => selects rest

/-- The attempts in a log: the members the selector returned, in order. -/
def attempts (log : List Event) : List StorageDO :=
  (selects log).filterMap fun x => x.2

/-- The UUIDs of an exclusion list. -/
def uuids (excludes : List StorageDO) : List String :=
  excludes.map fun e => e.Uuid

/-- The exclusion list of the later call holds every UUID of the earlier one
and at least one more. -/
def Grows (a b : List StorageDO × Option StorageDO) : Prop :=
  (∀ u ∈ uuids a.1, u ∈ uuids b.1) ∧ ∃ u ∈ uuids b.1, u ∉ uuids a.1

/-- The number of registry members whose UUID is not in the exclusion list. -/
def free (GroupMembers excludes : List StorageDO) : Nat :=
  (GroupMembers.filter fun b => !containsMember b (some excludes)).length

/-- The shape of the selector calls of a download that starts with the given
`fromSrc` and exclusion list and returns with exclusion list `final`: each call
runs with the current list; a call that finds nobody ends the download unless
it was made for the source instance; a call that finds a member finds a
registry member of the group that is not excluded, after which the member is
in the list once or twice. -/
def Trace (GroupMembers : List StorageDO) (group : String) :
    Bool → List StorageDO → List (List StorageDO × Option StorageDO) → List StorageDO → Prop
  | _, _, [], _ => False
  | fromSrc, ex, (ex', r) :: rest, final =>
    ex' = ex ∧
    match r with
    | none =>
      (fromSrc = true ∧ Trace GroupMembers group false ex rest final) ∨
        (fromSrc = false ∧ rest = [] ∧ final = ex)
    | some m =>
      m ∈ GroupMembers ∧ containsMember m (some ex) = false ∧ (group = "" ∨ group = m.Group) ∧
        ((rest = [] ∧ final = ex ++ [m]) ∨
          ∃ b, (b = true → fromSrc = true) ∧
            (Trace GroupMembers group b (ex ++ [m]) rest final ∨
              Trace GroupMembers group b (ex ++ [m] ++ [m]) rest final))

/-- Modelled from the spec: the path shape of section 6,
`/<group>/<instance>/<S|M>/<contentHash>`, standing for the constant
`app.PATH_REGEX` that is not in the sources. Splits a path at its slashes. -/
def splitSlash : List Char → List (List Char)
  | [] => [[]]
  | c :: rest =>
    match splitSlash rest with
    | [] => [[]]
    | seg :: segs => if c = '/' then [] :: seg :: segs else (c :: seg) :: segs

/-- Modelled from the spec: the four components of a path of the shape
`/<group>/<instance>/<S|M>/<contentHash>`, none for any other string. -/
def pathParts (path : String) : Option (String × String × String × String) :=
  match splitSlash path.data with
  | [[], g, i, sm, h] =>
    if g ≠ [] ∧ i ≠ [] ∧ (sm = ['S'] ∨ sm = ['M']) ∧ h ≠ [] then
      some (String.mk g, String.mk i, String.mk sm, String.mk h)
    else none
  | _ => none

/-- Modelled from the spec: `app.PATH_REGEX` as the path shape of section 6,
with the two substitutions `download` asks for; a string that does not match
is returned unchanged, as `ReplaceAllString` does. -/
def specPathRegex : PathRegex where
  Match path := (pathParts path).isSome
  ReplaceAllString src repl :=
    match pathParts src with
    | none => src
    | some (g, i, _, _) =>
      if repl = "${1}" then g else if repl = "${2}" then i else repl

/-! ## Concrete registries and outcomes -/

/-- A member of `groupA`, instance `inst1`. -/
def memberInst1 : StorageDO := ⟨"uuid-1", "groupA", "inst1", false, "10.0.0.1", 1024⟩

/-- A member of `groupA`, instance `inst2`. -/
def memberInst2 : StorageDO := ⟨"uuid-2", "groupA", "inst2", false, "10.0.0.2", 1024⟩

/-- A member of `groupA`, instance `inst3`. -/
def memberInst3 : StorageDO := ⟨"uuid-3", "groupA", "inst3", false, "10.0.0.3", 1024⟩

/-- A response frame with the given status and a body of `n` bytes. -/
def statusFrame (status : Int) (n : Nat) : Received OperationDownloadFileResponse :=
  .frame ⟨none, .ok ⟨status⟩, n⟩

/-- A writer handler that reads the whole body. -/
def drainHandler : WriterHandler := fun _ fileLen _ => ⟨fileLen, none⟩

/-- A writer handler that reads three bytes and fails. -/
def failingHandler : WriterHandler := fun _ _ _ => ⟨3, some (.New "disk full")⟩

/-- A writer handler that reads three bytes and returns nil. -/
def lazyHandler : WriterHandler := fun _ _ _ => ⟨3, none⟩

/-- Three live members of `groupA`; the pool refuses the first attempt and
every later exchange delivers the file. -/
def fallbackEnv : DownloadEnv where
  PATH_REGEX := specPathRegex
  GroupMembers := [memberInst2, memberInst1, memberInst3]
  attempt := fun k =>
    match k with
    | 0 => ⟨fun _ => 0, fun _ => .error (.New "max connection reached"), none,
        statusFrame STATUS_OK 6⟩
    | _ => ⟨fun _ => 0, fun _ => .ok 1, none, statusFrame STATUS_OK 6⟩

/-- Two live members; the first server contacted answers NOT_FOUND and the
next one delivers the file. -/
def notFoundEnv : DownloadEnv where
  PATH_REGEX := specPathRegex
  GroupMembers := [memberInst1, memberInst2]
  attempt := fun k =>
    match k with
    | 0 => ⟨fun _ => 0, fun _ => .ok 1, none, statusFrame STATUS_NOT_FOUND 0⟩
    | _ => ⟨fun _ => 0, fun _ => .ok 2, none, statusFrame STATUS_OK 6⟩

/-- One live member that answers OK with a body of ten bytes. -/
def shortReadEnv : DownloadEnv where
  PATH_REGEX := specPathRegex
  GroupMembers := [memberInst1]
  attempt := fun _ => ⟨fun _ => 0, fun _ => .ok 7, none, statusFrame STATUS_OK 10⟩

/-- One live member for which the pool has no connection left. -/
def poolFailEnv : DownloadEnv where
  PATH_REGEX := specPathRegex
  GroupMembers := [memberInst1]
  attempt := fun _ => ⟨fun _ => 0, fun _ => .error (.New "max connection reached"), none,
    statusFrame STATUS_OK 6⟩

end libclient

namespace svc

open libclient (Error)

/-! ## Authentication handler of the TCP service -/

/-- Modelled from the spec: the result codes of package `common` (section 6),
not in the sources; distinct constants. -/
inductive OperationResult where
  | SUCCESS
  | ERROR
  | UNAUTHORIZED
  deriving DecidableEq, Repr

/-- Modelled from the spec: the roles a process boots as, `common.BootAs`. -/
inductive BootMode where
  | BOOT_CLIENT
  | BOOT_STORAGE
  | BOOT_TRACKER
  deriving DecidableEq, Repr

/-- The fields of `common.Header` the handler reads and writes; a nil
attribute map is `none`, and a map is its lookup function. -/
structure Header where
  Result : OperationResult
  Msg : String
  Attributes : Option (String → Option String) := none

/-- A Go map index expression: the value under the key, or the zero value. -/
def index (m : String → Option String) (key : String) : String :=
  (m key).getD ""

/-- What the handler reads from its package and from packages `common`,
`encoding/json` and `reg`. -/
structure Env (Instance : Type) where
  BootAs : BootMode
  Unmarshal : String → Except Error Instance
  Put : Instance → Option Error

/-- The five values `authenticationHandler` returns; the reader is always nil
and the length always 0. -/
structure Reply (Instance : Type) where
  header : Header
  instance_ : Option Instance
  reader : Option Unit
  length : Int
  err : Option Error

/-- `authenticationHandler(header, secret)`. -/
def authenticationHandler {Instance : Type} (env : Env Instance) (header : Header)
    (secret : String) : Reply Instance :=
  match header.Attributes with
  | none => ⟨{ Result := .UNAUTHORIZED, Msg := "authentication failed" }, none, none, 0, none⟩
  | some attributes =>
    let s := index attributes "secret"
    if s ≠ secret then
      ⟨{ Result := .UNAUTHORIZED, Msg := "authentication failed" }, none, none, 0, none⟩
    else if env.BootAs = .BOOT_TRACKER then
      let s1 := index attributes "instance"
      match env.Unmarshal s1 with
      | .error err => ⟨{ Result := .ERROR, Msg := err.Error }, none, none, 0, some err⟩
      | .ok inst =>
        match env.Put inst with
        | some err => ⟨{ Result := .ERROR, Msg := err.Error }, none, none, 0, some err⟩
        | none =>
          ⟨{ Result := .SUCCESS, Msg := "authentication success" }, some inst, none, 0, none⟩
    else ⟨{ Result := .SUCCESS, Msg := "authentication success" }, none, none, 0, none⟩

end svc

namespace libclient

/-! ## Selector lemmas -/

theorem containsMember_eq_false_iff (m : StorageDO) (excludes : Option (List StorageDO)) :
    containsMember m excludes = false ↔ ∀ e ∈ excludes.getD [], e.Uuid ≠ m.Uuid := by
  cases excludes with
  | none => simp [containsMember]
  | some l => simp [containsMember]

theorem picks_iff (group instanceId : String) (excludes : Option (List StorageDO))
    (upload : Bool) (b : StorageDO) :
    picks group instanceId excludes upload b = true ↔
      Eligible group instanceId excludes upload b := by
  unfold picks Eligible
  rw [← containsMember_eq_false_iff]
  have hg : (group = "" ∨ group = b.Group) ↔ (b.Group = group ∨ group = "") :=
    ⟨fun h => h.elim Or.inr (fun h => Or.inl h.symm), fun h => h.elim (fun h => Or.inr h.symm) Or.inl⟩
  have hi : (instanceId = "" ∨ instanceId = b.InstanceId) ↔
      (b.InstanceId = instanceId ∨ instanceId = "") :=
    ⟨fun h => h.elim Or.inr (fun h => Or.inl h.symm), fun h => h.elim (fun h => Or.inr h.symm) Or.inl⟩
  cases hc : containsMember b excludes <;> cases upload <;> cases hr : b.ReadOnly <;>
    simp [hg, hi]

theorem pickAt_eq_get? (rd : Nat) (l : List StorageDO) (index : Nat) :
    pickAt rd l index = if index ≤ rd then l.get? (rd - index) else none := by
  induction l generalizing index with
  | nil => simp [pickAt]
  | cons b rest ih =>
    unfold pickAt
    by_cases h : index = rd
    · simp [h]
    · rw [if_neg h, ih]
      by_cases h2 : index ≤ rd
      · have h3 : index + 1 ≤ rd := by omega
        have h4 : rd - index = (rd - (index + 1)) + 1 := by omega
        rw [if_pos h2, if_pos h3, h4]
        simp
      · have h3 : ¬ index + 1 ≤ rd := by omega
        rw [if_neg h2, if_neg h3]

theorem selectStorageServer_eq_some (GroupMembers : List StorageDO) (rand : Nat → Nat)
    (group instanceId : String) (excludes : Option (List StorageDO)) (upload : Bool)
    (m : StorageDO)
    (h : selectStorageServer GroupMembers rand group instanceId excludes upload = some m) :
    m ∈ GroupMembers ∧ picks group instanceId excludes upload m = true := by
  unfold selectStorageServer at h
  simp only at h
  split at h
  · cases h
  · rw [pickAt_eq_get?] at h
    simp only [Nat.zero_le, if_true, Nat.sub_zero] at h
    have hm := List.get?_mem h
    simpa [List.mem_filter] using hm

theorem selectStorageServer_eq_none (GroupMembers : List StorageDO) (rand : Nat → Nat)
    (hrand : ∀ n, 0 < n → rand n < n)
    (group instanceId : String) (excludes : Option (List StorageDO)) (upload : Bool) :
    selectStorageServer GroupMembers rand group instanceId excludes upload = none ↔
      ∀ m ∈ GroupMembers, picks group instanceId excludes upload m = false := by
  unfold selectStorageServer
  simp only
  split
  · rename_i h0
    have : GroupMembers.filter (picks group instanceId excludes upload) = [] :=
      List.length_eq_zero.mp h0
    simp only [true_iff]
    intro m hm
    by_contra hp
    have : m ∈ GroupMembers.filter (picks group instanceId excludes upload) := by
      simp [List.mem_filter, hm, hp]
    simp_all
  · rename_i h0
    have hlt := hrand _ (Nat.pos_of_ne_zero h0)
    rw [pickAt_eq_get?]
    simp only [Nat.zero_le, if_true, Nat.sub_zero]
    constructor
    · intro h
      rw [List.get?_eq_none] at h
      omega
    · intro h
      exfalso
      apply h0
      rw [List.length_eq_zero, List.filter_eq_nil_iff]
      intro a ha
      simp [h a ha]

/-- C1. For every registry snapshot, exclusion list, group and instance
filter, upload flag and generator whose index is within range,
`selectStorageServer` returns none or a registry member that is not excluded
by UUID, is not read-only under upload, and matches both filters (the empty
string being the wildcard); it returns none exactly when no registry member
meets the four conditions; and in the scenario of three members
`[{g1, rw}, {g1, ro}, {g2, rw}]` with group `g1`, no instance filter, no
exclusions and upload intent it returns the first member. -/
theorem selectStorageServer_contract (GroupMembers : List StorageDO) (rand : Nat → Nat)
    (hrand : ∀ n, 0 < n → rand n < n)
    (group instanceId : String) (excludes : Option (List StorageDO)) (upload : Bool) :
    (∀ m, selectStorageServer GroupMembers rand group instanceId excludes upload = some m →
        m ∈ GroupMembers ∧ Eligible group instanceId excludes upload m) ∧
    (selectStorageServer GroupMembers rand group instanceId excludes upload = none ↔
        ¬ ∃ m ∈ GroupMembers, Eligible group instanceId excludes upload m) ∧
    (∀ (u1 u2 u3 i1 i2 i3 : String),
        selectStorageServer
          [⟨u1, "g1", i1, false, "", 0⟩, ⟨u2, "g1", i2, true, "", 0⟩, ⟨u3, "g2", i3, false, "", 0⟩]
          rand "g1" "" (some []) true = some ⟨u1, "g1", i1, false, "", 0⟩) := by
  refine ⟨?_, ?_, ?_⟩
  · intro m hm
    have := selectStorageServer_eq_some _ _ _ _ _ _ _ hm
    exact ⟨this.1, (picks_iff _ _ _ _ _).mp this.2⟩
  · rw [selectStorageServer_eq_none _ _ hrand]
    constructor
    · rintro h ⟨m, hm, he⟩
      have := h m hm
      rw [(picks_iff _ _ _ _ _).mpr he] at this
      cases this
    · intro h m hm
      by_contra hp
      exact h ⟨m, hm, (picks_iff _ _ _ _ _).mp (by simpa using hp)⟩
  · intro u1 u2 u3 i1 i2 i3
    have h1 := hrand 1 Nat.one_pos
    have h0 : rand 1 = 0 := by omega
    simp [selectStorageServer, picks, containsMember, pickAt, h0]

/-- Witness of C1: the scenario registry, group `g1`, upload intent, and the
generator that returns the last index; the selector returns the first member
and no member is passed over wrongly. -/
theorem selectStorageServer_contract_witness :
    (∀ n, 0 < n → (fun n => n - 1) n < n) ∧
    selectStorageServer
      [⟨"u1", "g1", "a", false, "", 0⟩, ⟨"u2", "g1", "b", true, "", 0⟩,
        ⟨"u3", "g2", "c", false, "", 0⟩]
      (fun n => n - 1) "g1" "" (some []) true = some ⟨"u1", "g1", "a", false, "", 0⟩ :=
  ⟨fun _ h => Nat.sub_lt h Nat.one_pos,
    (selectStorageServer_contract
      [⟨"u1", "g1", "a", false, "", 0⟩, ⟨"u2", "g1", "b", true, "", 0⟩,
        ⟨"u3", "g2", "c", false, "", 0⟩]
      (fun n => n - 1) (fun _ h => Nat.sub_lt h Nat.one_pos) "g1" "" (some []) true).2.2
      "u1" "u2" "u3" "a" "b" "c"⟩

end libclient

namespace libclient

/-! ## QueryFile -/

theorem exchangeFile_of_fails (x : TrackerExchange) (h : exchangeFails x) :
    exchangeFile x = none := by
  obtain ⟨send, recv⟩ := x
  unfold exchangeFile
  rcases h with h | ⟨e, h⟩ | ⟨r, h, h2⟩
  · cases send with
    | none => exact absurd rfl h
    | some e => rfl
  · simp only at h
    subst h
    cases send <;> rfl
  · simp only at h
    subst h
    obtain ⟨err, body, n⟩ := r
    cases send with
    | some e => rfl
    | none =>
      cases err with
      | some e => rfl
      | none =>
        cases body with
        | error e => rfl
        | ok q =>
          rcases h2 with h2 | ⟨e, h2⟩ | ⟨q', h2, h3, h4⟩
          · exact absurd rfl h2
          · cases h2
          · simp only [Except.ok.injEq] at h2
            subst h2
            simp [h3, h4]

theorem queryFileLoop_none (q : String) (T : List TrackerInstance) :
    queryFileLoop q T none = ((T.filterMap fun t => exchangeFile (t q)).head?, none) := by
  induction T with
  | nil => rfl
  | cons t rest ih =>
    unfold queryFileLoop
    simp only [List.filterMap_cons]
    generalize t q = x
    obtain ⟨send, recv⟩ := x
    cases send with
    | some e => simpa [exchangeFile] using ih
    | none =>
      cases recv with
      | broken e => simpa [exchangeFile, ReceiveResponse] using ih
      | frame r =>
        obtain ⟨err, body, n⟩ := r
        cases err with
        | some e => simpa [exchangeFile, ReceiveResponse, queryFileHandler] using ih
        | none =>
          cases body with
          | error e => simpa [exchangeFile, ReceiveResponse, queryFileHandler] using ih
          | ok r =>
            by_cases hs : r.Status ≠ STATUS_OK ∧ r.Status ≠ STATUS_NOT_FOUND
            · have hs' : ¬ (r.Status = STATUS_OK ∨ r.Status = STATUS_NOT_FOUND) := by
                rintro (h | h)
                · exact hs.1 h
                · exact hs.2 h
              simpa [exchangeFile, ReceiveResponse, queryFileHandler, hs, hs'] using ih
            · have hs' : r.Status = STATUS_OK ∨ r.Status = STATUS_NOT_FOUND := by
                by_contra h
                exact hs ⟨fun h1 => h (Or.inl h1), fun h2 => h (Or.inr h2)⟩
              cases hf : r.File with
              | none => simpa [exchangeFile, ReceiveResponse, queryFileHandler, hs, hs', hf] using ih
              | some f => simp [exchangeFile, ReceiveResponse, queryFileHandler, hs, hs', hf]

/-- C6. For every ordered list of tracker instances and every outcome of each
exchange, `QueryFile` returns a nil error and the file of the first instance,
in list order, whose exchange succeeds with a non-nil file (nil when there is
none); an instance whose send or response fails yields no file and is passed
over. In particular, when the first instance fails with a connection error
(on the send or on the response) and the second answers STATUS_OK with a file,
the result is the file of the second instance and no error. -/
theorem QueryFile_first_success (T : List TrackerInstance) (q : String) :
    (QueryFile T q).2 = none ∧
    (QueryFile T q).1 = (T.filterMap fun t => exchangeFile (t q)).head? ∧
    (∀ t ∈ T, exchangeFails (t q) → exchangeFile (t q) = none) ∧
    (∀ (first second : TrackerInstance) (rest : List TrackerInstance) (f : File) (n : Nat),
      ((first q).SendRequest ≠ none ∨ (∃ e, (first q).Receive = .broken e) ∨
        (∃ r, (first q).Receive = .frame r ∧ r.Err ≠ none)) →
      (second q).SendRequest = none →
      (second q).Receive = .frame ⟨none, .ok ⟨STATUS_OK, some f⟩, n⟩ →
      QueryFile (first :: second :: rest) q = (some f, none)) := by
  refine ⟨?_, ?_, ?_, ?_⟩
  · simp [QueryFile, queryFileLoop_none]
  · simp [QueryFile, queryFileLoop_none]
  · intro t _ h
    exact exchangeFile_of_fails _ h
  · intro first second rest f n h1 h2 h3
    have hfail : exchangeFails (first q) := by
      rcases h1 with h | h | ⟨r, h, h'⟩
      · exact Or.inl h
      · exact Or.inr (Or.inl h)
      · exact Or.inr (Or.inr ⟨r, h, Or.inl h'⟩)
    have hsecond : exchangeFile (second q) = some f := by
      generalize second q = x at h2 h3
      obtain ⟨send, recv⟩ := x
      simp only at h2 h3
      subst h2 h3
      simp [exchangeFile]
    simp [QueryFile, queryFileLoop_none, exchangeFile_of_fails _ hfail, hsecond]

/-! ## Upload: the pre-check -/

/-- C2. For every `Upload` call with the pre-check enabled on a readable file
whose MD5 is computed, if `QueryFile` on that MD5 returns a descriptor `f`, then
`Upload` returns `f.Group/f.Instance/sm/f.Md5` and a nil error, `sm` being `M`
when `f.PartNum > 1` and `S` otherwise, and makes no call on the selector or on
a storage server. -/
theorem Upload_precheck_hit (env : UploadEnv) (path group : String) (fi : LocalFile)
    (md5 : String) (f : File)
    (hfile : env.GetFile path = .ok fi)
    (hmd5 : env.GetFileMd5 path = .ok md5)
    (hquery : (QueryFile env.TrackerInstances md5).1 = some f) :
    ∃ run, Upload env path group false = some run ∧
      run.path = f.Group ++ "/" ++ f.Instance ++ "/" ++
        (if f.PartNum > 1 then "M" else "S") ++ "/" ++ f.Md5 ∧
      run.err = none ∧ run.log = [] := by
  simp [Upload, hfile, hmd5, hquery]

/-- Witness of C2: the known three part file comes back as an `M` path. -/
theorem Upload_precheck_hit_witness :
    ∃ run, Upload precheckEnv "/tmp/a.bin" "g1" false = some run ∧
      run.path = "g1" ++ "/" ++ "i1" ++ "/" ++ "M" ++ "/" ++ "0cc175b9c0f1b6a831c399e269772661" ∧
      run.err = none ∧ run.log = [] :=
  Upload_precheck_hit precheckEnv "/tmp/a.bin" "g1" ⟨"a.bin", 5, []⟩
    "0cc175b9c0f1b6a831c399e269772661" ⟨"g1", "i1", "0cc175b9c0f1b6a831c399e269772661", 3⟩
    rfl rfl (by decide)

end libclient

namespace svc

open libclient (Error)

/-! ## Authentication -/

/-- C10. For every request header and configured secret, `authenticationHandler`
answers UNAUTHORIZED with a nil instance and a nil error whenever the header has
no attribute map or the value under the key `secret` (the empty string when the
key is absent) differs from the configured secret; when the process is not
booted as a tracker it answers SUCCESS exactly when the map is present and that
value equals the secret; so a header whose map lacks the key is accepted when
the configured secret is the empty string. -/
theorem authenticationHandler_secret {Instance : Type} (env : Env Instance) (header : Header)
    (secret : String) :
    ((header.Attributes = none ∨
        ∃ attributes, header.Attributes = some attributes ∧
          (attributes "secret").getD "" ≠ secret) →
      (authenticationHandler env header secret).header.Result = .UNAUTHORIZED ∧
      (authenticationHandler env header secret).instance_ = none ∧
      (authenticationHandler env header secret).err = none) ∧
    (env.BootAs ≠ .BOOT_TRACKER →
      ((authenticationHandler env header secret).header.Result = .SUCCESS ↔
        ∃ attributes, header.Attributes = some attributes ∧
          (attributes "secret").getD "" = secret)) ∧
    (env.BootAs ≠ .BOOT_TRACKER →
      ∀ attributes, header.Attributes = some attributes → attributes "secret" = none →
        secret = "" → (authenticationHandler env header secret).header.Result = .SUCCESS) := by
  obtain ⟨res, msg, attrs⟩ := header
  refine ⟨?_, ?_, ?_⟩
  · rintro (h | ⟨attributes, h, hne⟩)
    · simp only at h
      subst h
      simp [authenticationHandler]
    · simp only at h
      subst h
      simp [authenticationHandler, index, hne]
  · intro hboot
    cases attrs with
    | none => simp [authenticationHandler]
    | some attributes =>
      by_cases hs : (attributes "secret").getD "" = secret
      · simp [authenticationHandler, index, hs, hboot]
      · simp [authenticationHandler, index, hs]
  · intro hboot attributes h hkey hsecret
    simp only at h
    subst h
    simp [authenticationHandler, index, hkey, hsecret, hboot]

end svc

namespace libclient

/-! ## Download: one pass -/

theorem downloadPasses_succ (env : DownloadEnv) (wh : WriterHandler) (path : String)
    (start offset : Int) (fuel : Nat) (s : DownloadState) :
    downloadPasses env wh path start offset (fuel + 1) s =
      match downloadStep env wh path start offset s with
      | (events, .ret err excludes) => some ⟨err, events, excludes⟩
      | (events, .again s') =>
        (downloadPasses env wh path start offset fuel s').map fun r =>
          { r with log := events ++ r.log } := rfl

/-- The selector call of the pass that starts in state `s`. -/
theorem downloadStep_cases (env : DownloadEnv) (wh : WriterHandler) (path : String)
    (start offset : Int) (s : DownloadState) (filter : String) (mem : Option StorageDO)
    (hfilter : filter = if s.fromSrc then pathInstance env path else "")
    (hmem : selectStorageServer env.GroupMembers (env.attempt s.attempt).rand
      (pathGroup env path) filter (some s.excludes) false = mem) :
    (mem = none ∧ s.fromSrc = false ∧
      downloadStep env wh path start offset s =
        ([Event.Select (pathGroup env path) filter s.excludes false mem],
          .ret (some .NO_STORAGE_ERROR) s.excludes)) ∨
    (mem = none ∧ s.fromSrc = true ∧
      downloadStep env wh path start offset s =
        ([Event.Select (pathGroup env path) filter s.excludes false mem],
          .again ⟨s.attempt, false, s.excludes⟩)) ∨
    (∃ m tail, mem = some m ∧
      downloadStep env wh path start offset s =
        (Event.Select (pathGroup env path) filter s.excludes false mem :: tail,
          .ret none (s.excludes ++ [m])) ∧
      selects tail = [] ∧ (∃ b, Event.ReceiveResponse b none ∈ tail) ∧
      (∃ b, tail.getLast? = some (Event.ReturnConnBridge m b))) ∨
    (∃ m tail s', mem = some m ∧
      downloadStep env wh path start offset s =
        (Event.Select (pathGroup env path) filter s.excludes false mem :: tail, .again s') ∧
      selects tail = [] ∧ (∀ b, Event.ReceiveResponse b none ∉ tail) ∧
      s'.attempt = s.attempt + 1 ∧ (s'.fromSrc = true → s.fromSrc = true) ∧
      (s'.excludes = s.excludes ++ [m] ∨ s'.excludes = s.excludes ++ [m] ++ [m])) := by
  subst hfilter
  unfold downloadStep
  simp only [hmem]
  cases mem with
  | none =>
    cases hsrc : s.fromSrc with
    | false => left; simp
    | true => right; left; simp
  | some m =>
    right; right
    simp only
    cases hg : (env.attempt s.attempt).GetConnBridge m with
    | error e =>
      right
      exact ⟨m, [.GetConnBridge m none], ⟨s.attempt + 1, s.fromSrc, s.excludes ++ [m] ++ [m]⟩,
        rfl, rfl, rfl, by simp, rfl, fun h => h, Or.inr rfl⟩
    | ok b =>
      simp only
      cases hsend : (env.attempt s.attempt).SendRequest with
      | some e2 =>
        right
        exact ⟨m, _, ⟨s.attempt + 1, false, s.excludes ++ [m]⟩,
          rfl, rfl, rfl, by simp, rfl, (by simp), Or.inl rfl⟩
      | none =>
        simp only
        cases hrecv : (env.attempt s.attempt).Receive with
        | broken e =>
          have hR : ReceiveResponse (Received.broken e) (downloadHandler wh path b)
              (STATUS_INTERNAL_SERVER_ERROR, none) =
              (some e, STATUS_INTERNAL_SERVER_ERROR, none) := rfl
          simp only [hR]
          rw [if_neg (by decide)]
          exact Or.inr ⟨m, _, _, rfl, rfl, by simp [selects], by simp, rfl, (by simp),
            Or.inl rfl⟩
        | frame r =>
          obtain ⟨err, body, n⟩ := r
          cases err with
          | some e =>
            have hR : ReceiveResponse (Received.frame ⟨some e, body, n⟩)
                (downloadHandler wh path b) (STATUS_INTERNAL_SERVER_ERROR, none) =
                (some e, STATUS_INTERNAL_SERVER_ERROR, none) := rfl
            simp only [hR]
            rw [if_neg (by decide)]
            exact Or.inr ⟨m, _, _, rfl, rfl, by simp [selects], by simp, rfl, (by simp),
              Or.inl rfl⟩
          | none =>
            cases body with
            | error e =>
              have hR : ReceiveResponse (Received.frame ⟨none, .error e, n⟩)
                  (downloadHandler wh path b) (STATUS_INTERNAL_SERVER_ERROR, none) =
                  (some e, STATUS_INTERNAL_SERVER_ERROR, none) := rfl
              simp only [hR]
              rw [if_neg (by decide)]
              exact Or.inr ⟨m, _, _, rfl, rfl, by simp [selects], by simp, rfl, (by simp),
                Or.inl rfl⟩
            | ok resp =>
              by_cases hnf : resp.Status = STATUS_NOT_FOUND
              · have hR : ReceiveResponse (Received.frame ⟨none, .ok resp, n⟩)
                    (downloadHandler wh path b) (STATUS_INTERNAL_SERVER_ERROR, none) =
                    (some .FILE_NOT_FOUND_ERROR, resp.Status, none) := by
                  simp [ReceiveResponse, downloadHandler, hnf]
                simp only [hR]
                rw [if_pos (Or.inl hnf)]
                exact Or.inr ⟨m, _, _, rfl, rfl, by simp [selects], by simp, rfl, (by simp),
                  Or.inl rfl⟩
              · by_cases hok : resp.Status = STATUS_OK
                · have hR : ReceiveResponse (Received.frame ⟨none, .ok resp, n⟩)
                      (downloadHandler wh path b) (STATUS_INTERNAL_SERVER_ERROR, none) =
                      ((wh path n b).err, resp.Status, some (n, wh path n b)) := by
                    have hne : ¬ STATUS_OK = STATUS_NOT_FOUND := by decide
                    simp [ReceiveResponse, downloadHandler, hok, hne]
                  simp only [hR]
                  cases hw : (wh path n b).err with
                  | some e =>
                    simp only
                    rw [if_pos (Or.inr hok)]
                    exact Or.inr ⟨m, _, _, rfl, rfl, by simp [selects], by simp, rfl,
                      (by simp), Or.inl rfl⟩
                  | none =>
                    exact Or.inl ⟨m, _, rfl, rfl, by simp [selects], ⟨b, by simp⟩,
                      ⟨b, by simp⟩⟩
                · have hR : ReceiveResponse (Received.frame ⟨none, .ok resp, n⟩)
                      (downloadHandler wh path b) (STATUS_INTERNAL_SERVER_ERROR, none) =
                      (some .DOWNLOAD_FILE_ERROR, resp.Status, none) := by
                    simp [ReceiveResponse, downloadHandler, hnf, hok]
                  simp only [hR]
                  rw [if_neg (by simp [hnf, hok])]
                  exact Or.inr ⟨m, _, _, rfl, rfl, by simp [selects], by simp, rfl, (by simp),
                    Or.inl rfl⟩

end libclient

namespace libclient

/-! ## Download: the passes of a call -/

theorem selects_append (a b : List Event) : selects (a ++ b) = selects a ++ selects b := by
  induction a with
  | nil => rfl
  | cons e rest ih => cases e <;> simp [selects, ih]

theorem selects_cons_select (g f : String) (ex : List StorageDO) (u : Bool)
    (r : Option StorageDO) (l : List Event) :
    selects (Event.Select g f ex u r :: l) = (ex, r) :: selects l := rfl

theorem picks_download (group filter : String) (ex : List StorageDO) (m : StorageDO)
    (h : picks group filter (some ex) false m = true) :
    containsMember m (some ex) = false ∧ (group = "" ∨ group = m.Group) ∧
      (filter = "" ∨ filter = m.InstanceId) := by
  unfold picks at h
  cases hc : containsMember m (some ex) with
  | true => simp [hc] at h
  | false => simpa [hc] using h

theorem downloadPasses_trace (env : DownloadEnv) (wh : WriterHandler) (path : String)
    (start offset : Int) (fuel : Nat) :
    ∀ (s : DownloadState) (run : DownloadRun),
      downloadPasses env wh path start offset fuel s = some run →
      Trace env.GroupMembers (pathGroup env path) s.fromSrc s.excludes (selects run.log)
        run.excludes := by
  induction fuel with
  | zero => intro s run h; cases h
  | succ fuel ih =>
    intro s run h
    rw [downloadPasses_succ] at h
    rcases downloadStep_cases env wh path start offset s _ _ rfl rfl with
      ⟨hm, hsrc, hstep⟩ | ⟨hm, hsrc, hstep⟩ | ⟨m, tail, hm, hstep, htail, -, -⟩ |
      ⟨m, tail, s', hm, hstep, htail, -, -, hsrc, hex⟩
    · rw [hstep] at h
      simp only [Option.some.injEq] at h
      subst h
      simp only [selects_cons_select, selects, hm]
      exact ⟨rfl, Or.inr ⟨hsrc, rfl, rfl⟩⟩
    · rw [hstep] at h
      simp only [Option.map_eq_some'] at h
      obtain ⟨r, hr, rfl⟩ := h
      have := ih _ _ hr
      simp only [List.singleton_append, selects_cons_select, hm]
      exact ⟨rfl, Or.inl ⟨hsrc, this⟩⟩
    · rw [hstep] at h
      simp only [Option.some.injEq] at h
      subst h
      have hp := selectStorageServer_eq_some _ _ _ _ _ _ _ hm
      have hq := picks_download _ _ _ _ hp.2
      simp only [selects_cons_select, htail, hm]
      exact ⟨rfl, hp.1, hq.1, hq.2.1, Or.inl ⟨rfl, rfl⟩⟩
    · rw [hstep] at h
      simp only [Option.map_eq_some'] at h
      obtain ⟨r, hr, rfl⟩ := h
      have := ih _ _ hr
      have hp := selectStorageServer_eq_some _ _ _ _ _ _ _ hm
      have hq := picks_download _ _ _ _ hp.2
      simp only [List.cons_append, selects_cons_select, selects_append, htail,
        List.nil_append, hm]
      refine ⟨rfl, hp.1, hq.1, hq.2.1, Or.inr ⟨s'.fromSrc, hsrc, ?_⟩⟩
      rcases hex with hex | hex
      · left; rw [← hex]; exact this
      · right; rw [← hex]; exact this

theorem downloadPasses_err (env : DownloadEnv) (wh : WriterHandler) (path : String)
    (start offset : Int) (fuel : Nat) :
    ∀ (s : DownloadState) (run : DownloadRun),
      downloadPasses env wh path start offset fuel s = some run →
      (run.err = none ∧ (∃ b, Event.ReceiveResponse b none ∈ run.log) ∧
        (∃ m b, run.log.getLast? = some (Event.ReturnConnBridge m b))) ∨
      (run.err = some .NO_STORAGE_ERROR ∧ (∀ b, Event.ReceiveResponse b none ∉ run.log) ∧
        run.log.getLast? =
          some (Event.Select (pathGroup env path) "" run.excludes false none) ∧
        ∃ k, selectStorageServer env.GroupMembers (env.attempt k).rand (pathGroup env path) ""
          (some run.excludes) false = none) := by
  induction fuel with
  | zero => intro s run h; cases h
  | succ fuel ih =>
    intro s run h
    rw [downloadPasses_succ] at h
    rcases downloadStep_cases env wh path start offset s _ _ rfl rfl with
      ⟨hm, hsrc, hstep⟩ | ⟨hm, hsrc, hstep⟩ | ⟨m, tail, hm, hstep, htail, hok, hlast⟩ |
      ⟨m, tail, s', hm, hstep, htail, hfail, -, hsrc, hex⟩
    · rw [hstep] at h
      simp only [Option.some.injEq] at h
      subst h
      right
      have hm' : selectStorageServer env.GroupMembers (env.attempt s.attempt).rand
          (pathGroup env path) "" (some s.excludes) false = none := by
        simpa [hsrc] using hm
      refine ⟨rfl, ?_, ?_, ⟨s.attempt, hm'⟩⟩
      · simp
      · simp [hsrc, hm']
    · rw [hstep] at h
      simp only [Option.map_eq_some'] at h
      obtain ⟨r, hr, rfl⟩ := h
      rcases ih _ _ hr with ⟨h1, ⟨b, h2⟩, ⟨m, b', h3⟩⟩ | ⟨h1, h2, h3, h4⟩
      · left
        refine ⟨h1, ⟨b, by simp [h2]⟩, ⟨m, b', ?_⟩⟩
        simp only
        rw [List.getLast?_append, h3]
        rfl
      · right
        refine ⟨h1, ?_, ?_, h4⟩
        · intro b
          simp [h2 b]
        · simp only
          rw [List.getLast?_append, h3]
          rfl
    · rw [hstep] at h
      simp only [Option.some.injEq] at h
      subst h
      left
      obtain ⟨b, hb⟩ := hok
      obtain ⟨b', hb'⟩ := hlast
      refine ⟨rfl, ⟨b, by simp [hb]⟩, ⟨m, b', ?_⟩⟩
      simp only
      rw [List.getLast?_cons, hb']
      rfl
    · rw [hstep] at h
      simp only [Option.map_eq_some'] at h
      obtain ⟨r, hr, rfl⟩ := h
      rcases ih _ _ hr with ⟨h1, ⟨b, h2⟩, ⟨m', b', h3⟩⟩ | ⟨h1, h2, h3, h4⟩
      · left
        refine ⟨h1, ⟨b, by simp [h2]⟩, ⟨m', b', ?_⟩⟩
        simp only
        rw [List.getLast?_append, h3]
        rfl
      · right
        refine ⟨h1, ?_, ?_, h4⟩
        · intro b
          simp [h2 b, hfail b]
        · simp only
          rw [List.getLast?_append, h3]
          rfl

end libclient

namespace libclient

/-! ## Measures on the exclusion list -/

theorem length_filter_le_of_imp {α : Type} (l : List α) (p q : α → Bool)
    (himp : ∀ x ∈ l, q x = true → p x = true) :
    (l.filter q).length ≤ (l.filter p).length := by
  induction l with
  | nil => simp
  | cons a t ih =>
    have iht := ih fun x hx => himp x (List.mem_cons_of_mem a hx)
    have ha := himp a (List.mem_cons_self a t)
    cases hq : q a with
    | false =>
      cases hp : p a with
      | false => simpa [List.filter_cons, hq, hp] using iht
      | true => simp [List.filter_cons, hq, hp]; omega
    | true =>
      have hp := ha hq
      simpa [List.filter_cons, hq, hp] using iht

theorem length_filter_lt_of_imp {α : Type} (l : List α) (p q : α → Bool)
    (himp : ∀ x ∈ l, q x = true → p x = true) (m : α) (hm : m ∈ l)
    (hp : p m = true) (hq : q m = false) :
    (l.filter q).length < (l.filter p).length := by
  induction l with
  | nil => cases hm
  | cons a t ih =>
    have himp' : ∀ x ∈ t, q x = true → p x = true :=
      fun x hx => himp x (List.mem_cons_of_mem a hx)
    rcases List.mem_cons.mp hm with rfl | hmt
    · have := length_filter_le_of_imp t p q himp'
      simp [List.filter_cons, hq, hp]
      omega
    · have iht := ih himp' hmt
      have ha := himp a (List.mem_cons_self a t)
      cases hqa : q a with
      | false =>
        cases hpa : p a with
        | false => simpa [List.filter_cons, hqa, hpa] using iht
        | true => simp [List.filter_cons, hqa, hpa]; omega
      | true =>
        have hpa := ha hqa
        simpa [List.filter_cons, hqa, hpa] using iht

theorem containsMember_append (b : StorageDO) (ex l : List StorageDO) :
    containsMember b (some (ex ++ l)) =
      (containsMember b (some ex) || containsMember b (some l)) := by
  simp [containsMember, List.any_append]

theorem containsMember_iff_mem_uuids (b : StorageDO) (ex : List StorageDO) :
    containsMember b (some ex) = true ↔ b.Uuid ∈ uuids ex := by
  simp only [containsMember, uuids, List.any_eq_true, beq_iff_eq, List.mem_map]

theorem containsMember_self (m : StorageDO) : containsMember m (some [m]) = true := by
  simp [containsMember]

theorem free_push_lt (GroupMembers ex l : List StorageDO) (m : StorageDO)
    (hm : m ∈ GroupMembers) (hc : containsMember m (some ex) = false) (hl : m ∈ l) :
    free GroupMembers (ex ++ l) < free GroupMembers ex := by
  unfold free
  apply length_filter_lt_of_imp _ _ _ _ m hm
  · simp [hc]
  · have : containsMember m (some l) = true := by
      rw [containsMember_iff_mem_uuids]
      exact List.mem_map.mpr ⟨m, hl, rfl⟩
    simp [containsMember_append, this]
  · intro x _ hx
    simp only [containsMember_append, Bool.not_or, Bool.and_eq_true, Bool.not_eq_true'] at hx
    simp [hx.1]

theorem candidates_push_lt (GroupMembers ex l : List StorageDO) (group : String) (m : StorageDO)
    (hm : m ∈ GroupMembers) (hc : containsMember m (some ex) = false)
    (hg : group = "" ∨ group = m.Group) (hl : m ∈ l) :
    (GroupMembers.filter (picks group "" (some (ex ++ l)) false)).length <
      (GroupMembers.filter (picks group "" (some ex) false)).length := by
  apply length_filter_lt_of_imp _ _ _ _ m hm
  · simp [picks, hc, hg]
  · have : containsMember m (some l) = true := by
      rw [containsMember_iff_mem_uuids]
      exact List.mem_map.mpr ⟨m, hl, rfl⟩
    simp [picks, containsMember_append, this]
  · intro x _ hx
    unfold picks at hx ⊢
    cases hcx : containsMember x (some ex) with
    | true => simp [containsMember_append, hcx] at hx
    | false =>
      cases hcl : containsMember x (some l) with
      | true => simp [containsMember_append, hcx, hcl] at hx
      | false => simpa [containsMember_append, hcx, hcl] using hx

theorem free_le_length (GroupMembers ex : List StorageDO) :
    free GroupMembers ex ≤ GroupMembers.length := by
  unfold free
  exact List.length_filter_le _ _

/-! ## Download terminates -/

theorem downloadPasses_terminates (env : DownloadEnv) (wh : WriterHandler) (path : String)
    (start offset : Int) (fuel : Nat) :
    ∀ (s : DownloadState),
      free env.GroupMembers s.excludes + (if s.fromSrc then 2 else 1) ≤ fuel →
      ∃ run, downloadPasses env wh path start offset fuel s = some run := by
  induction fuel with
  | zero =>
    intro s h
    split at h <;> omega
  | succ fuel ih =>
    intro s h
    rw [downloadPasses_succ]
    rcases downloadStep_cases env wh path start offset s _ _ rfl rfl with
      ⟨hm, hsrc, hstep⟩ | ⟨hm, hsrc, hstep⟩ | ⟨m, tail, hm, hstep, htail, -, -⟩ |
      ⟨m, tail, s', hm, hstep, htail, -, -, hsrc, hex⟩
    · rw [hstep]
      exact ⟨_, rfl⟩
    · rw [hstep]
      have : free env.GroupMembers s.excludes + 1 ≤ fuel := by
        simp only [hsrc, if_true] at h
        omega
      obtain ⟨r, hr⟩ := ih ⟨s.attempt, false, s.excludes⟩ (by simpa using this)
      simp only [hr, Option.map_some']
      exact ⟨_, rfl⟩
    · rw [hstep]
      exact ⟨_, rfl⟩
    · rw [hstep]
      have hp := selectStorageServer_eq_some _ _ _ _ _ _ _ hm
      have hq := picks_download _ _ _ _ hp.2
      have hlt : free env.GroupMembers s'.excludes < free env.GroupMembers s.excludes := by
        rcases hex with hex | hex
        · rw [hex]
          exact free_push_lt _ _ _ m hp.1 hq.1 (by simp)
        · rw [hex, List.append_assoc]
          exact free_push_lt _ _ _ m hp.1 hq.1 (by simp)
      have hle : (if s'.fromSrc then 2 else 1) ≤ (if s.fromSrc then 2 else 1) := by
        cases h1 : s'.fromSrc with
        | false => cases s.fromSrc <;> decide
        | true => simp [hsrc h1]
      obtain ⟨r, hr⟩ := ih s' (by omega)
      simp only [hr, Option.map_some']
      exact ⟨_, rfl⟩

theorem download_terminates (env : DownloadEnv) (wh : WriterHandler) (path : String)
    (start offset : Int) (fromSrc : Bool) (excludes : List StorageDO) :
    ∃ run, download env path start offset fromSrc excludes wh = some run := by
  unfold download
  apply downloadPasses_terminates
  have := free_le_length env.GroupMembers excludes
  simp only
  split <;> omega

end libclient

namespace libclient

/-! ## Consequences of the shape of the selector calls -/

theorem Trace_inv (G : List StorageDO) (g : String) (b : Bool) (ex : List StorageDO)
    (x : List StorageDO × Option StorageDO) (rest : List (List StorageDO × Option StorageDO))
    (final : List StorageDO) (h : Trace G g b ex (x :: rest) final) :
    x.1 = ex ∧
    ((x.2 = none ∧ b = true ∧ Trace G g false ex rest final) ∨
      (x.2 = none ∧ b = false ∧ rest = [] ∧ final = ex) ∨
      (∃ m, x.2 = some m ∧ m ∈ G ∧ containsMember m (some ex) = false ∧
        (g = "" ∨ g = m.Group) ∧
        ((rest = [] ∧ final = ex ++ [m]) ∨
          ∃ b' l, (b' = true → b = true) ∧ m ∈ l ∧ Trace G g b' (ex ++ l) rest final))) := by
  obtain ⟨ex', r⟩ := x
  cases r with
  | none =>
    simp only [Trace] at h
    obtain ⟨h1, h2⟩ := h
    refine ⟨h1, ?_⟩
    rcases h2 with ⟨hb, ht⟩ | ⟨hb, hr, hf⟩
    · exact Or.inl ⟨rfl, hb, ht⟩
    · exact Or.inr (Or.inl ⟨rfl, hb, hr, hf⟩)
  | some m =>
    simp only [Trace] at h
    obtain ⟨h1, hm, hc, hg, h2⟩ := h
    refine ⟨h1, Or.inr (Or.inr ⟨m, rfl, hm, hc, hg, ?_⟩)⟩
    rcases h2 with h2 | ⟨b', hb', h3 | h3⟩
    · exact Or.inl h2
    · exact Or.inr ⟨b', [m], hb', by simp, h3⟩
    · exact Or.inr ⟨b', [m, m], hb', by simp, by simpa [List.append_assoc] using h3⟩

theorem Trace_head (G : List StorageDO) (g : String) (b : Bool) (ex : List StorageDO)
    (sel : List (List StorageDO × Option StorageDO)) (final : List StorageDO)
    (h : Trace G g b ex sel final) : ∃ r rest, sel = (ex, r) :: rest := by
  cases sel with
  | nil => simp [Trace] at h
  | cons x rest =>
    have := (Trace_inv G g b ex x rest final h).1
    exact ⟨x.2, rest, by rw [← this]⟩

theorem uuids_append (a b : List StorageDO) : uuids (a ++ b) = uuids a ++ uuids b := by
  simp [uuids]

theorem Trace_mono (G : List StorageDO) (g : String)
    (sel : List (List StorageDO × Option StorageDO)) (final : List StorageDO) :
    ∀ (b : Bool) (ex : List StorageDO), Trace G g b ex sel final →
      (∀ x ∈ sel, ∀ u ∈ uuids ex, u ∈ uuids x.1) ∧ (∀ u ∈ uuids ex, u ∈ uuids final) := by
  induction sel with
  | nil => intro b ex h; simp [Trace] at h
  | cons x rest ih =>
    intro b ex h
    obtain ⟨hx, hcases⟩ := Trace_inv G g b ex x rest final h
    rcases hcases with ⟨-, -, ht⟩ | ⟨-, -, hr, hf⟩ | ⟨m, -, -, -, -, hrest⟩
    · have := ih false ex ht
      refine ⟨?_, this.2⟩
      intro y hy u hu
      rcases List.mem_cons.mp hy with rfl | hy
      · rw [hx]; exact hu
      · exact this.1 y hy u hu
    · subst hr hf
      refine ⟨?_, fun u hu => hu⟩
      intro y hy u hu
      simp only [List.mem_singleton] at hy
      subst hy
      rw [hx]; exact hu
    · rcases hrest with ⟨hr, hf⟩ | ⟨b', l, -, -, ht⟩
      · subst hr hf
        refine ⟨?_, fun u hu => by rw [uuids_append]; exact List.mem_append_left _ hu⟩
        intro y hy u hu
        simp only [List.mem_singleton] at hy
        subst hy
        rw [hx]; exact hu
      · have := ih b' (ex ++ l) ht
        have hsub : ∀ u ∈ uuids ex, u ∈ uuids (ex ++ l) := fun u hu => by
          rw [uuids_append]; exact List.mem_append_left _ hu
        refine ⟨?_, fun u hu => this.2 u (hsub u hu)⟩
        intro y hy u hu
        rcases List.mem_cons.mp hy with rfl | hy
        · rw [hx]; exact hu
        · exact this.1 y hy u (hsub u hu)

theorem Trace_attempt (G : List StorageDO) (g : String)
    (sel : List (List StorageDO × Option StorageDO)) (final : List StorageDO) :
    ∀ (b : Bool) (ex : List StorageDO), Trace G g b ex sel final →
      ∀ x ∈ sel, ∀ m, x.2 = some m →
        m ∈ G ∧ containsMember m (some x.1) = false ∧ (g = "" ∨ g = m.Group) := by
  induction sel with
  | nil => intro b ex h; simp [Trace] at h
  | cons x rest ih =>
    intro b ex h y hy m hym
    obtain ⟨hx, hcases⟩ := Trace_inv G g b ex x rest final h
    rcases List.mem_cons.mp hy with rfl | hy
    · rcases hcases with ⟨hn, -, -⟩ | ⟨hn, -, -, -⟩ | ⟨m', hm', hG, hc, hg, -⟩
      · rw [hn] at hym; cases hym
      · rw [hn] at hym; cases hym
      · rw [hm'] at hym
        cases hym
        rw [hx]
        exact ⟨hG, hc, hg⟩
    · rcases hcases with ⟨-, -, ht⟩ | ⟨-, -, hr, -⟩ | ⟨m', -, -, -, -, hrest⟩
      · exact ih false ex ht y hy m hym
      · subst hr; cases hy
      · rcases hrest with ⟨hr, -⟩ | ⟨b', l, -, -, ht⟩
        · subst hr; cases hy
        · exact ih b' (ex ++ l) ht y hy m hym

theorem Trace_grows (G : List StorageDO) (g : String)
    (sel : List (List StorageDO × Option StorageDO)) (final : List StorageDO) :
    ∀ (ex : List StorageDO), Trace G g false ex sel final → List.Chain' Grows sel := by
  induction sel with
  | nil => intro ex h; simp [Trace] at h
  | cons x rest ih =>
    intro ex h
    obtain ⟨hx, hcases⟩ := Trace_inv G g false ex x rest final h
    rcases hcases with ⟨-, hb, -⟩ | ⟨-, -, hr, -⟩ | ⟨m, -, -, hc, -, hrest⟩
    · cases hb
    · subst hr; exact List.chain'_singleton x
    · rcases hrest with ⟨hr, -⟩ | ⟨b', l, hb', hl, ht⟩
      · subst hr; exact List.chain'_singleton x
      · have hb'' : b' = false := by
          cases b' with
          | false => rfl
          | true => exact absurd (hb' rfl) (by decide)
        subst hb''
        rw [List.chain'_cons']
        refine ⟨?_, ih _ ht⟩
        obtain ⟨r, rest', hrest'⟩ := Trace_head _ _ _ _ _ _ ht
        subst hrest'
        intro y hy
        simp only [List.head?_cons, Option.mem_def, Option.some.injEq] at hy
        subst hy
        unfold Grows
        rw [hx]
        refine ⟨fun u hu => by rw [uuids_append]; exact List.mem_append_left _ hu,
          m.Uuid, ?_, ?_⟩
        · rw [uuids_append]
          exact List.mem_append_right _ (List.mem_map.mpr ⟨m, hl, rfl⟩)
        · rw [← containsMember_iff_mem_uuids, hc]
          decide

end libclient

namespace libclient

theorem Trace_fresh (G : List StorageDO) (g : String) (b : Bool) (ex : List StorageDO)
    (sel : List (List StorageDO × Option StorageDO)) (final : List StorageDO)
    (h : Trace G g b ex sel final) :
    ∀ m ∈ sel.filterMap (fun x => x.2), m.Uuid ∉ uuids ex := by
  intro m hm hu
  obtain ⟨x, hx, hxm⟩ := List.mem_filterMap.mp hm
  have h1 := (Trace_attempt G g sel final b ex h x hx m hxm).2.1
  have h2 := (Trace_mono G g sel final b ex h).1 x hx _ hu
  rw [← containsMember_iff_mem_uuids, h1] at h2
  cases h2

theorem Trace_nodup (G : List StorageDO) (g : String)
    (sel : List (List StorageDO × Option StorageDO)) (final : List StorageDO) :
    ∀ (b : Bool) (ex : List StorageDO), Trace G g b ex sel final →
      ((sel.filterMap fun x => x.2).map fun m => m.Uuid).Nodup := by
  induction sel with
  | nil => intro b ex h; simp [Trace] at h
  | cons x rest ih =>
    intro b ex h
    obtain ⟨hx, hcases⟩ := Trace_inv G g b ex x rest final h
    rcases hcases with ⟨hn, -, ht⟩ | ⟨hn, -, hr, -⟩ | ⟨m, hm, -, -, -, hrest⟩
    · simp only [List.filterMap_cons, hn]
      exact ih false ex ht
    · subst hr
      simp [List.filterMap_cons, hn]
    · simp only [List.filterMap_cons, hm, List.map_cons, List.nodup_cons]
      rcases hrest with ⟨hr, -⟩ | ⟨b', l, -, hl, ht⟩
      · subst hr; simp
      · refine ⟨?_, ih b' _ ht⟩
        intro hmem
        obtain ⟨m', hm', heq⟩ := List.mem_map.mp hmem
        apply Trace_fresh G g b' _ rest final ht m' hm'
        rw [uuids_append, heq]
        exact List.mem_append_right _ (List.mem_map.mpr ⟨m, hl, rfl⟩)

theorem Trace_free (G : List StorageDO) (g : String)
    (sel : List (List StorageDO × Option StorageDO)) (final : List StorageDO) :
    ∀ (b : Bool) (ex : List StorageDO), Trace G g b ex sel final →
      List.Chain' (fun a c => a.2 ≠ none → free G c.1 < free G a.1)
        (sel ++ [(final, none)]) := by
  induction sel with
  | nil => intro b ex h; simp [Trace] at h
  | cons x rest ih =>
    intro b ex h
    obtain ⟨hx, hcases⟩ := Trace_inv G g b ex x rest final h
    rw [List.cons_append, List.chain'_cons']
    rcases hcases with ⟨hn, -, ht⟩ | ⟨hn, -, hr, -⟩ | ⟨m, hm, hG, hc, -, hrest⟩
    · exact ⟨fun y _ hne => absurd hn hne, ih false ex ht⟩
    · subst hr
      exact ⟨fun y _ hne => absurd hn hne, List.chain'_singleton _⟩
    · rcases hrest with ⟨hr, hf⟩ | ⟨b', l, -, hl, ht⟩
      · subst hr hf
        refine ⟨?_, List.chain'_singleton _⟩
        intro y hy _
        simp only [List.nil_append, List.head?_cons, Option.mem_def, Option.some.injEq] at hy
        subst hy
        rw [hx]
        exact free_push_lt G ex [m] m hG hc (by simp)
      · refine ⟨?_, ih b' _ ht⟩
        obtain ⟨r, rest', hrest'⟩ := Trace_head _ _ _ _ _ _ ht
        subst hrest'
        intro y hy _
        simp only [List.cons_append, List.head?_cons, Option.mem_def, Option.some.injEq] at hy
        subst hy
        rw [hx]
        exact free_push_lt G ex l m hG hc hl

theorem Trace_count (G : List StorageDO) (g : String)
    (sel : List (List StorageDO × Option StorageDO)) (final : List StorageDO) :
    ∀ (b : Bool) (ex : List StorageDO), Trace G g b ex sel final →
      (sel.filterMap fun x => x.2).length ≤ (G.filter (picks g "" (some ex) false)).length := by
  induction sel with
  | nil => intro b ex h; simp [Trace] at h
  | cons x rest ih =>
    intro b ex h
    obtain ⟨hx, hcases⟩ := Trace_inv G g b ex x rest final h
    rcases hcases with ⟨hn, -, ht⟩ | ⟨hn, -, hr, -⟩ | ⟨m, hm, hG, hc, hg, hrest⟩
    · simp only [List.filterMap_cons, hn]
      exact ih false ex ht
    · subst hr
      simp [List.filterMap_cons, hn]
    · simp only [List.filterMap_cons, hm, List.length_cons]
      rcases hrest with ⟨hr, -⟩ | ⟨b', l, -, hl, ht⟩
      · subst hr
        have := candidates_push_lt G ex [m] g m hG hc hg (by simp)
        simp only [List.filterMap_nil, List.length_nil]
        omega
      · have h1 := ih b' _ ht
        have h2 := candidates_push_lt G ex l g m hG hc hg hl
        omega

theorem downloadPasses_head (env : DownloadEnv) (wh : WriterHandler) (path : String)
    (start offset : Int) (fuel : Nat) (s : DownloadState) (run : DownloadRun)
    (h : downloadPasses env wh path start offset fuel s = some run) :
    ∃ rest, selects run.log =
      (s.excludes, selectStorageServer env.GroupMembers (env.attempt s.attempt).rand
        (pathGroup env path) (if s.fromSrc then pathInstance env path else "")
        (some s.excludes) false) :: rest := by
  cases fuel with
  | zero => cases h
  | succ fuel =>
    rw [downloadPasses_succ] at h
    rcases downloadStep_cases env wh path start offset s _ _ rfl rfl with
      ⟨-, -, hstep⟩ | ⟨-, -, hstep⟩ | ⟨m, tail, -, hstep, -, -, -⟩ |
      ⟨m, tail, s', -, hstep, -, -, -, -, -⟩
    · rw [hstep] at h
      simp only [Option.some.injEq] at h
      subst h
      exact ⟨_, rfl⟩
    · rw [hstep] at h
      simp only [Option.map_eq_some'] at h
      obtain ⟨r, -, rfl⟩ := h
      exact ⟨_, rfl⟩
    · rw [hstep] at h
      simp only [Option.some.injEq] at h
      subst h
      exact ⟨_, rfl⟩
    · rw [hstep] at h
      simp only [Option.map_eq_some'] at h
      obtain ⟨r, -, rfl⟩ := h
      exact ⟨_, rfl⟩

/-! ## Download: the claims -/

/-- C3. Within one `DownloadFile` call, for every sequence of pool, send and
receive outcomes, the call returns, every selector call after the first runs
with an exclusion list that holds all UUIDs of the list of the call before it
and at least one more, and no two attempts select a server of the same UUID. -/
theorem DownloadFile_exclusion_grows (env : DownloadEnv) (path : String) (start offset : Int)
    (wh : WriterHandler) :
    ∃ run, DownloadFile env path start offset wh = some run ∧
      List.Chain' Grows (selects run.log) ∧
      ((attempts run.log).map fun m => m.Uuid).Nodup := by
  unfold DownloadFile
  simp only
  generalize (if (TrimSpace path).data.head? ≠ some '/' then "/" ++ TrimSpace path
    else TrimSpace path) = p
  cases hmatch : env.PATH_REGEX.Match p with
  | false =>
    exact ⟨⟨some (.New "file path format error"), [], []⟩, by simp,
      by simp [selects], by simp [attempts, selects]⟩
  | true =>
    obtain ⟨run, hrun⟩ := download_terminates env wh p start offset false []
    refine ⟨run, by simpa using hrun, ?_, ?_⟩
    · exact Trace_grows _ _ _ _ _ (downloadPasses_trace _ _ _ _ _ _ _ _ hrun)
    · exact Trace_nodup _ _ _ _ _ _ (downloadPasses_trace _ _ _ _ _ _ _ _ hrun)

/-- C8. For every registry snapshot, initial exclusion list, value of `fromSrc`
and sequence of outcomes, `download` returns; from each attempt to the next
selector call (and to the return) the number of registry members whose UUID is
not excluded strictly decreases; the number of attempts is at most the number
of initially non-excluded members matching the group; when no attempt
succeeds the call returns `NO_STORAGE_ERROR`; and that error is returned only
right after a selector call without instance filter that returned none. -/
theorem download_bounded (env : DownloadEnv) (path : String) (start offset : Int)
    (fromSrc : Bool) (excludes : List StorageDO) (wh : WriterHandler) :
    ∃ run, download env path start offset fromSrc excludes wh = some run ∧
      List.Chain'
        (fun a c => a.2 ≠ none → free env.GroupMembers c.1 < free env.GroupMembers a.1)
        (selects run.log ++ [(run.excludes, none)]) ∧
      (attempts run.log).length ≤
        (env.GroupMembers.filter (picks (pathGroup env path) "" (some excludes) false)).length ∧
      ((∀ b, Event.ReceiveResponse b none ∉ run.log) → run.err = some .NO_STORAGE_ERROR) ∧
      (run.err = some .NO_STORAGE_ERROR →
        run.log.getLast? =
          some (Event.Select (pathGroup env path) "" run.excludes false none)) := by
  obtain ⟨run, hrun⟩ := download_terminates env wh path start offset fromSrc excludes
  have ht := downloadPasses_trace _ _ _ _ _ _ _ _ hrun
  refine ⟨run, hrun, Trace_free _ _ _ _ _ _ ht, Trace_count _ _ _ _ _ _ ht, ?_, ?_⟩
  · intro hnone
    rcases downloadPasses_err _ _ _ _ _ _ _ _ hrun with ⟨-, ⟨b, hb⟩, -⟩ | ⟨h1, -, -, -⟩
    · exact absurd hb (hnone b)
    · exact h1
  · intro herr
    rcases downloadPasses_err _ _ _ _ _ _ _ _ hrun with ⟨h1, -, -⟩ | ⟨-, -, h3, -⟩
    · rw [h1] at herr; cases herr
    · exact h3

end libclient

namespace libclient

/-! ## Download: what follows a pass in the log -/

theorem not_mem_of_selects_nil (t : List Event) (h : selects t = []) (g f : String)
    (ex : List StorageDO) (u : Bool) (r : Option StorageDO) :
    Event.Select g f ex u r ∉ t := by
  induction t with
  | nil => simp
  | cons e rest ih =>
    cases e <;> simp_all [selects]

theorem split_after_prefix {α : Type} (x : α) (b l : List α) :
    ∀ (t a : List α), a ++ x :: b = t ++ l → x ∉ t → ∃ a', a = t ++ a' ∧ l = a' ++ x :: b := by
  intro t
  induction t with
  | nil => intro a h _; exact ⟨a, rfl, by simpa using h.symm⟩
  | cons y t ih =>
    intro a h hx
    cases a with
    | nil =>
      simp only [List.nil_append, List.cons_append, List.cons.injEq] at h
      exact absurd (h.1 ▸ List.mem_cons_self _ _) hx
    | cons z a0 =>
      simp only [List.cons_append, List.cons.injEq] at h
      obtain ⟨a', ha', hl⟩ := ih a0 h.2 (fun hm => hx (List.mem_cons_of_mem _ hm))
      exact ⟨a', by rw [h.1, ha']; rfl, hl⟩

theorem downloadPasses_log_head (env : DownloadEnv) (wh : WriterHandler) (path : String)
    (start offset : Int) (fuel : Nat) (s : DownloadState) (run : DownloadRun)
    (h : downloadPasses env wh path start offset fuel s = some run) :
    ∃ tail, run.log =
      Event.Select (pathGroup env path) (if s.fromSrc then pathInstance env path else "")
        s.excludes false
        (selectStorageServer env.GroupMembers (env.attempt s.attempt).rand
          (pathGroup env path) (if s.fromSrc then pathInstance env path else "")
          (some s.excludes) false) :: tail := by
  cases fuel with
  | zero => cases h
  | succ fuel =>
    rw [downloadPasses_succ] at h
    rcases downloadStep_cases env wh path start offset s _ _ rfl rfl with
      ⟨-, -, hstep⟩ | ⟨-, -, hstep⟩ | ⟨m, tail, -, hstep, -, -, -⟩ |
      ⟨m, tail, s', -, hstep, -, -, -, -, -⟩
    · rw [hstep] at h
      simp only [Option.some.injEq] at h
      subst h
      exact ⟨_, rfl⟩
    · rw [hstep] at h
      simp only [Option.map_eq_some'] at h
      obtain ⟨r, -, rfl⟩ := h
      exact ⟨_, rfl⟩
    · rw [hstep] at h
      simp only [Option.some.injEq] at h
      subst h
      exact ⟨_, rfl⟩
    · rw [hstep] at h
      simp only [Option.map_eq_some'] at h
      obtain ⟨r, -, rfl⟩ := h
      exact ⟨_, rfl⟩

/-- A pass without source preference whose selector call finds nobody ends the
call with `NO_STORAGE_ERROR`. -/
theorem downloadPasses_exhausted (env : DownloadEnv) (wh : WriterHandler) (path : String)
    (start offset : Int) (fuel : Nat) (k : Nat) (ex : List StorageDO) (run : DownloadRun)
    (h : downloadPasses env wh path start offset fuel ⟨k, false, ex⟩ = some run)
    (hnone : selectStorageServer env.GroupMembers (env.attempt k).rand (pathGroup env path) ""
      (some ex) false = none) :
    run = ⟨some .NO_STORAGE_ERROR, [Event.Select (pathGroup env path) "" ex false none], ex⟩ := by
  cases fuel with
  | zero => cases h
  | succ fuel =>
    rw [downloadPasses_succ] at h
    rcases downloadStep_cases env wh path start offset ⟨k, false, ex⟩ _ _ rfl rfl with
      ⟨-, -, hstep⟩ | ⟨-, hsrc, -⟩ | ⟨m, tail, hm, -, -, -, -⟩ |
      ⟨m, tail, s', hm, -, -, -, -, -, -⟩
    · rw [hstep] at h
      simp only [Option.some.injEq] at h
      subst h
      simp [hnone]
    · cases hsrc
    · simp [hnone] at hm
    · simp [hnone] at hm

/-- Every selector call for the source instance that finds nobody is followed
at once by a selector call for any instance with the same exclusion list and
the same generator; when that one finds nobody either, the call ends there
with `NO_STORAGE_ERROR`. -/
theorem downloadPasses_fallback (env : DownloadEnv) (wh : WriterHandler) (path : String)
    (start offset : Int) (hI : pathInstance env path ≠ "") (fuel : Nat) :
    ∀ (s : DownloadState) (run : DownloadRun),
      downloadPasses env wh path start offset fuel s = some run →
      ∀ (pre post : List Event) (ex : List StorageDO),
        run.log = pre ++
          Event.Select (pathGroup env path) (pathInstance env path) ex false none :: post →
        ∃ k post',
          selectStorageServer env.GroupMembers (env.attempt k).rand (pathGroup env path)
            (pathInstance env path) (some ex) false = none ∧
          post = Event.Select (pathGroup env path) "" ex false
            (selectStorageServer env.GroupMembers (env.attempt k).rand (pathGroup env path) ""
              (some ex) false) :: post' ∧
          (selectStorageServer env.GroupMembers (env.attempt k).rand (pathGroup env path) ""
              (some ex) false = none →
            post' = [] ∧ run.err = some .NO_STORAGE_ERROR) := by
  induction fuel with
  | zero => intro s run h; cases h
  | succ fuel ih =>
    intro s run h pre post ex hsplit
    rw [downloadPasses_succ] at h
    rcases downloadStep_cases env wh path start offset s _ _ rfl rfl with
      ⟨hm, hsrc, hstep⟩ | ⟨hm, hsrc, hstep⟩ | ⟨m, tail, hm, hstep, htail, -, -⟩ |
      ⟨m, tail, s', hm, hstep, htail, -, -, -, -⟩
    · rw [hstep] at h
      simp only [Option.some.injEq] at h
      subst h
      simp only [hsrc, Bool.false_eq_true, if_false] at hsplit
      cases pre with
      | nil =>
        simp only [List.nil_append, List.cons.injEq, Event.Select.injEq] at hsplit
        exact absurd hsplit.1.2.1.symm hI
      | cons e pre' =>
        simp only [List.cons_append, List.cons.injEq] at hsplit
        have := congrArg List.length hsplit.2
        simp at this
        omega
    · rw [hstep] at h
      simp only [Option.map_eq_some'] at h
      obtain ⟨r, hr, rfl⟩ := h
      simp only [hsrc, if_true, List.singleton_append] at hsplit hm
      cases pre with
      | nil =>
        simp only [List.nil_append, List.cons.injEq, Event.Select.injEq] at hsplit
        obtain ⟨⟨-, -, hex, -, -⟩, hpost⟩ := hsplit
        subst hex
        obtain ⟨tail, htail⟩ := downloadPasses_log_head _ _ _ _ _ _ _ _ hr
        simp only [Bool.false_eq_true, if_false] at htail
        refine ⟨s.attempt, tail, hm, by rw [← hpost, htail], ?_⟩
        intro hnone
        have := downloadPasses_exhausted _ _ _ _ _ _ _ _ _ hr hnone
        subst this
        simp only [hnone, List.cons.injEq, true_and] at htail
        exact ⟨htail.symm, rfl⟩
      | cons e pre' =>
        simp only [List.cons_append, List.cons.injEq] at hsplit
        exact ih _ _ hr pre' post ex hsplit.2
    · rw [hstep] at h
      simp only [Option.some.injEq] at h
      subst h
      cases pre with
      | nil =>
        simp only [List.nil_append, List.cons.injEq, Event.Select.injEq] at hsplit
        rw [hm] at hsplit
        simp at hsplit
      | cons e pre' =>
        simp only [List.cons_append, List.cons.injEq] at hsplit
        exfalso
        apply not_mem_of_selects_nil tail htail (pathGroup env path) (pathInstance env path)
          ex false none
        rw [hsplit.2]
        simp
    · rw [hstep] at h
      simp only [Option.map_eq_some'] at h
      obtain ⟨r, hr, rfl⟩ := h
      cases pre with
      | nil =>
        simp only [List.nil_append, List.cons_append, List.cons.injEq,
          Event.Select.injEq] at hsplit
        rw [hm] at hsplit
        simp at hsplit
      | cons e pre' =>
        simp only [List.cons_append, List.cons.injEq] at hsplit
        obtain ⟨a', -, hl⟩ := split_after_prefix _ _ _ tail pre' hsplit.2.symm
          (not_mem_of_selects_nil tail htail _ _ _ _ _)
        exact ih _ _ hr a' post ex hl

/-- Every entry of the exclusion list at return was there at the start or is an
attempted member. -/
theorem Trace_final (G : List StorageDO) (g : String)
    (sel : List (List StorageDO × Option StorageDO)) (final : List StorageDO) :
    ∀ (b : Bool) (ex : List StorageDO), Trace G g b ex sel final →
      ∀ u ∈ uuids final,
        u ∈ uuids ex ∨ u ∈ (sel.filterMap fun x => x.2).map fun m => m.Uuid := by
  induction sel with
  | nil => intro b ex h; simp [Trace] at h
  | cons x rest ih =>
    intro b ex h u hu
    obtain ⟨ex', r⟩ := x
    cases r with
    | none =>
      simp only [Trace] at h
      rcases h.2 with ⟨-, ht⟩ | ⟨-, -, hf⟩
      · simpa [List.filterMap_cons] using ih false ex ht u hu
      · subst hf; exact Or.inl hu
    | some m =>
      simp only [Trace] at h
      obtain ⟨-, -, -, -, h2⟩ := h
      have key : ∀ l : List StorageDO, (∀ y ∈ l, y = m) → ∀ v ∈ uuids (ex ++ l),
          v ∈ uuids ex ∨ v = m.Uuid := by
        intro l hl v hv
        rw [uuids_append, List.mem_append] at hv
        rcases hv with hv | hv
        · exact Or.inl hv
        · obtain ⟨y, hy, rfl⟩ := List.mem_map.mp hv
          rw [hl y hy]; exact Or.inr rfl
      simp only [List.filterMap_cons, List.map_cons, List.mem_cons]
      rcases h2 with ⟨-, hf⟩ | ⟨b', -, ht | ht⟩
      · subst hf
        rcases key [m] (by simp) u hu with h | h
        · exact Or.inl h
        · exact Or.inr (Or.inl h)
      · rcases ih b' _ ht u hu with h | h
        · rcases key [m] (by simp) u h with h | h
          · exact Or.inl h
          · exact Or.inr (Or.inl h)
        · exact Or.inr (Or.inr h)
      · rcases ih b' _ ht u hu with h | h
        · rw [List.append_assoc] at h
          rcases key ([m] ++ [m]) (by simp) u h with h | h
          · exact Or.inl h
          · exact Or.inr (Or.inl h)
        · exact Or.inr (Or.inr h)

theorem selects_getLast (log : List Event) (g f : String) (ex : List StorageDO) (u : Bool)
    (r : Option StorageDO) (h : log.getLast? = some (Event.Select g f ex u r)) :
    (selects log).getLast? = some (ex, r) := by
  induction log with
  | nil => cases h
  | cons e rest ih =>
    cases rest with
    | nil =>
      simp only [List.getLast?_singleton, Option.some.injEq] at h
      subst h
      rfl
    | cons e' rest' =>
      rw [List.getLast?_cons_cons] at h
      have := ih h
      cases e <;> simp_all [selects, List.getLast?_cons]

/-- With a generator within range, a selector call without instance filter
that finds nobody leaves every member matching the group excluded. -/
theorem excluded_of_select_none (G : List StorageDO) (rand : Nat → Nat)
    (hrand : ∀ n, 0 < n → rand n < n) (g inst : String) (ex : List StorageDO)
    (h : selectStorageServer G rand g inst (some ex) false = none) :
    ∀ c ∈ G, (c.Group = g ∨ g = "") → (c.InstanceId = inst ∨ inst = "") →
      c.Uuid ∈ uuids ex := by
  intro c hc hg hi
  rw [selectStorageServer_eq_none _ _ hrand] at h
  have hp := h c hc
  rw [← containsMember_iff_mem_uuids]
  by_contra hcm
  have hcm' : containsMember c (some ex) = false := by simpa using hcm
  rw [(picks_iff _ _ _ _ _).mpr
    ⟨(containsMember_eq_false_iff _ _).mp hcm', by simp, hg, hi⟩] at hp
  cases hp

end libclient

namespace libclient

/-- C7. For a preferred-source download (`fromSrc = true`, empty exclusion
list) of a path with group `G` and instance `I`, both non-empty, over a
registry with a member of group `G` and instance `I`, and a generator within
range, the call returns and:
the first server attempted is a registry member of group `G` and instance `I`;
every server attempted is a registry member of group `G` whose UUID is not
excluded at that moment;
a selector call for instance `I` finds nobody only when every member of
instance `I` is excluded, and is followed at once by a selector call for any
instance with the same exclusion list, which returns a non-excluded member of
group `G` unless every member of group `G` is excluded, in which case the call
ends there with `NO_STORAGE_ERROR`;
no two attempts select a server of the same UUID, and an attempt is the last
selector call only of a call that returns nil, so a failed attempt is always
followed by another selector call;
the call returns nil exactly when an exchange succeeded; otherwise it returns
`NO_STORAGE_ERROR` right after a selector call for any instance that found
nobody, and then every member of group `G`, of whatever instance, is excluded
and has been attempted. -/
theorem download_prefers_source (env : DownloadEnv) (path : String) (start offset : Int)
    (wh : WriterHandler)
    (hrand : ∀ k n, 0 < n → (env.attempt k).rand n < n)
    (hG : pathGroup env path ≠ "") (hI : pathInstance env path ≠ "")
    (hlive : ∃ c ∈ env.GroupMembers,
      c.Group = pathGroup env path ∧ c.InstanceId = pathInstance env path) :
    ∃ run, download env path start offset true [] wh = some run ∧
      (∃ first rest, attempts run.log = first :: rest ∧ first ∈ env.GroupMembers ∧
        first.Group = pathGroup env path ∧ first.InstanceId = pathInstance env path) ∧
      (∀ x ∈ selects run.log, ∀ m, x.2 = some m →
        m ∈ env.GroupMembers ∧ m.Group = pathGroup env path ∧ m.Uuid ∉ uuids x.1) ∧
      (∀ pre post ex,
        run.log = pre ++
          Event.Select (pathGroup env path) (pathInstance env path) ex false none :: post →
        (∀ c ∈ env.GroupMembers, c.Group = pathGroup env path →
          c.InstanceId = pathInstance env path → c.Uuid ∈ uuids ex) ∧
        ∃ r post', post = Event.Select (pathGroup env path) "" ex false r :: post' ∧
          (∀ m, r = some m →
            m ∈ env.GroupMembers ∧ m.Group = pathGroup env path ∧ m.Uuid ∉ uuids ex) ∧
          (r = none ↔
            ∀ c ∈ env.GroupMembers, c.Group = pathGroup env path → c.Uuid ∈ uuids ex) ∧
          (r = none → post' = [] ∧ run.err = some .NO_STORAGE_ERROR)) ∧
      ((attempts run.log).map fun m => m.Uuid).Nodup ∧
      (∀ pre ex m, selects run.log = pre ++ [(ex, some m)] → run.err = none) ∧
      (run.err = none ↔ ∃ b, Event.ReceiveResponse b none ∈ run.log) ∧
      (run.err = none ∨
        (run.err = some .NO_STORAGE_ERROR ∧
          run.log.getLast? =
            some (Event.Select (pathGroup env path) "" run.excludes false none) ∧
          ∀ c ∈ env.GroupMembers, c.Group = pathGroup env path →
            c.Uuid ∈ uuids run.excludes ∧
              c.Uuid ∈ (attempts run.log).map fun m => m.Uuid)) := by
  obtain ⟨run, hrun⟩ := download_terminates env wh path start offset true []
  have ht := downloadPasses_trace _ _ _ _ _ _ _ _ hrun
  obtain ⟨rest, hhead⟩ := downloadPasses_head _ _ _ _ _ _ _ _ hrun
  simp only [if_true] at hhead
  refine ⟨run, hrun, ?_, ?_, ?_, Trace_nodup _ _ _ _ _ _ ht, ?_, ?_, ?_⟩
  · cases hsel : selectStorageServer env.GroupMembers (env.attempt 0).rand (pathGroup env path)
        (pathInstance env path) (some []) false with
    | none =>
      exfalso
      rw [selectStorageServer_eq_none _ _ (hrand 0)] at hsel
      obtain ⟨c, hc, hcg, hci⟩ := hlive
      have := hsel c hc
      rw [(picks_iff _ _ _ _ _).mpr ⟨by simp, by simp, Or.inl hcg, Or.inl hci⟩] at this
      cases this
    | some m =>
      rw [hsel] at hhead
      have hp := selectStorageServer_eq_some _ _ _ _ _ _ _ hsel
      have hq := picks_download _ _ _ _ hp.2
      refine ⟨m, rest.filterMap fun x => x.2, ?_, hp.1, ?_, ?_⟩
      · simp [attempts, hhead]
      · rcases hq.2.1 with h | h
        · exact absurd h hG
        · exact h.symm
      · rcases hq.2.2 with h | h
        · exact absurd h hI
        · exact h.symm
  · intro x hx m hxm
    obtain ⟨h1, h2, h3⟩ := Trace_attempt _ _ _ _ _ _ ht x hx m hxm
    refine ⟨h1, ?_, ?_⟩
    · rcases h3 with h | h
      · exact absurd h hG
      · exact h.symm
    · rw [← containsMember_iff_mem_uuids, h2]
      decide
  · intro pre post ex hsplit
    obtain ⟨k, post', hsrc, hpost, hnone⟩ :=
      downloadPasses_fallback env wh path start offset hI _ _ _ hrun pre post ex hsplit
    refine ⟨fun c hc hcg hci =>
      excluded_of_select_none _ _ (hrand k) _ _ _ hsrc c hc (Or.inl hcg) (Or.inl hci),
      _, post', hpost, ?_, ?_, hnone⟩
    · intro m hm
      have hp := selectStorageServer_eq_some _ _ _ _ _ _ _ hm
      have hq := picks_download _ _ _ _ hp.2
      refine ⟨hp.1, ?_, ?_⟩
      · rcases hq.2.1 with h | h
        · exact absurd h hG
        · exact h.symm
      · rw [← containsMember_iff_mem_uuids, hq.1]
        decide
    · constructor
      · intro hr c hc hcg
        exact excluded_of_select_none _ _ (hrand k) _ _ _ hr c hc (Or.inl hcg) (Or.inr rfl)
      · intro hall
        rw [selectStorageServer_eq_none _ _ (hrand k)]
        intro c hc
        by_contra hp
        have hp' : picks (pathGroup env path) "" (some ex) false c = true := by
          simpa using hp
        have hq := picks_download _ _ _ _ hp'
        have hcg : c.Group = pathGroup env path := by
          rcases hq.2.1 with h | h
          · exact absurd h hG
          · exact h.symm
        have := hall c hc hcg
        rw [← containsMember_iff_mem_uuids, hq.1] at this
        cases this
  · intro pre ex m hlast
    rcases downloadPasses_err _ _ _ _ _ _ _ _ hrun with ⟨h1, -, -⟩ | ⟨-, -, h3, -⟩
    · exact h1
    · have := selects_getLast _ _ _ _ _ _ h3
      rw [hlast] at this
      simp at this
  · rcases downloadPasses_err _ _ _ _ _ _ _ _ hrun with ⟨h1, h2, -⟩ | ⟨h1, h2, -, -⟩
    · exact ⟨fun _ => h2, fun _ => h1⟩
    · constructor
      · intro h; rw [h1] at h; cases h
      · rintro ⟨b, hb⟩; exact absurd hb (h2 b)
  · rcases downloadPasses_err _ _ _ _ _ _ _ _ hrun with ⟨h1, -, -⟩ | ⟨h1, -, h3, k, hk⟩
    · exact Or.inl h1
    · refine Or.inr ⟨h1, h3, ?_⟩
      intro c hc hcg
      have hex := excluded_of_select_none _ _ (hrand k) _ _ _ hk c hc (Or.inl hcg) (Or.inr rfl)
      refine ⟨hex, ?_⟩
      rcases Trace_final _ _ _ _ _ _ ht _ hex with h | h
      · simp [uuids] at h
      · exact h

/-- Witness of C7: the path `/groupA/inst1/S/abc123` over three live members of
`groupA`, `inst1` being the second of the registry, the pool refusing the first
attempt: `inst1` is attempted first, then the selector finds nobody for `inst1`,
falls back to any instance and `inst2` delivers the file. -/
theorem download_prefers_source_witness :
    (∃ run, download fallbackEnv "/groupA/inst1/S/abc123" 0 0 true [] drainHandler = some run ∧
      (∃ first rest, attempts run.log = first :: rest ∧ first ∈ fallbackEnv.GroupMembers ∧
        first.Group = pathGroup fallbackEnv "/groupA/inst1/S/abc123" ∧
        first.InstanceId = pathInstance fallbackEnv "/groupA/inst1/S/abc123") ∧
      (run.err = none ↔ ∃ b, Event.ReceiveResponse b none ∈ run.log)) ∧
    (download fallbackEnv "/groupA/inst1/S/abc123" 0 0 true [] drainHandler).map
        (fun run => (run.err, selects run.log)) =
      some (none,
        [([], some memberInst1),
          ([memberInst1, memberInst1], none),
          ([memberInst1, memberInst1], some memberInst2)]) :=
  ⟨(download_prefers_source fallbackEnv "/groupA/inst1/S/abc123" 0 0 drainHandler
      (fun k n h => by cases k <;> exact h) (by decide) (by decide)
      ⟨memberInst1, by decide, by decide, by decide⟩).imp
      fun _ h => ⟨h.1, h.2.1, h.2.2.2.2.2.2.1⟩,
    by decide⟩

end libclient

namespace libclient

/-! ## Download: what happens after the response -/

/-- Counterexample to C4 as stated: the first server contacted answers
NOT_FOUND, yet `download` selects and contacts a second server and returns nil
instead of the file-not-found error. -/
theorem download_not_found_counterexample :
    (download notFoundEnv "/groupA/inst1/S/abc123" 0 0 false [] drainHandler).map
        (fun run => (run.err, attempts run.log,
          decide (Event.ReceiveResponse 1 (some .FILE_NOT_FOUND_ERROR) ∈ run.log))) =
      some (none, [memberInst1, memberInst2], true) := by
  decide

/-- C4, amended. When the contacted server answers NOT_FOUND, `download` hands
the connection to `ReturnConnBridge` (healthy) and then retries: the pass ends
with the recursive call with `fromSrc = false` and the exclusion list that now
holds the server, so the next call in the log is a selector call for any
instance with that list. When that selector call finds nobody the call ends
there with `NO_STORAGE_ERROR`. In general the call returns nil exactly when a
later exchange succeeds and `NO_STORAGE_ERROR` exactly when none does, the
latter right after a selector call that found nobody and (generator within
range) with every member matching the group excluded; it never returns the
file-not-found error. The passes are those of `download` from any of its
states; `download` itself starts them with `GroupMembers.length + 2`. -/
theorem download_not_found_retries (env : DownloadEnv) (wh : WriterHandler) (path : String)
    (start offset : Int) (s : DownloadState) (m : StorageDO) (b : Bridge) (n fuel : Nat)
    (hsel : selectStorageServer env.GroupMembers (env.attempt s.attempt).rand
      (pathGroup env path) (if s.fromSrc then pathInstance env path else "")
      (some s.excludes) false = some m)
    (hconn : (env.attempt s.attempt).GetConnBridge m = .ok b)
    (hsend : (env.attempt s.attempt).SendRequest = none)
    (hrecv : (env.attempt s.attempt).Receive = .frame ⟨none, .ok ⟨STATUS_NOT_FOUND⟩, n⟩)
    (hfuel : free env.GroupMembers s.excludes + 2 ≤ fuel) :
    downloadStep env wh path start offset s =
      ([.Select (pathGroup env path) (if s.fromSrc then pathInstance env path else "")
          s.excludes false (some m),
        .GetConnBridge m (some b),
        .SendRequest b path start offset none,
        .ReceiveResponse b (some .FILE_NOT_FOUND_ERROR),
        .ReturnConnBridge m b],
        .again ⟨s.attempt + 1, false, s.excludes ++ [m]⟩) ∧
    ∃ run tail, downloadPasses env wh path start offset fuel s = some run ∧
      run.log =
        [.Select (pathGroup env path) (if s.fromSrc then pathInstance env path else "")
            s.excludes false (some m),
          .GetConnBridge m (some b),
          .SendRequest b path start offset none,
          .ReceiveResponse b (some .FILE_NOT_FOUND_ERROR),
          .ReturnConnBridge m b,
          .Select (pathGroup env path) "" (s.excludes ++ [m]) false
            (selectStorageServer env.GroupMembers (env.attempt (s.attempt + 1)).rand
              (pathGroup env path) "" (some (s.excludes ++ [m])) false)] ++ tail ∧
      (selectStorageServer env.GroupMembers (env.attempt (s.attempt + 1)).rand
          (pathGroup env path) "" (some (s.excludes ++ [m])) false = none →
        tail = [] ∧ run.err = some .NO_STORAGE_ERROR ∧ run.excludes = s.excludes ++ [m]) ∧
      (run.err = none ↔ ∃ b', Event.ReceiveResponse b' none ∈ tail) ∧
      (run.err = some .NO_STORAGE_ERROR ↔ ∀ b', Event.ReceiveResponse b' none ∉ tail) ∧
      (run.err = some .NO_STORAGE_ERROR →
        run.log.getLast? =
          some (Event.Select (pathGroup env path) "" run.excludes false none)) ∧
      ((∀ k n, 0 < n → (env.attempt k).rand n < n) → run.err = some .NO_STORAGE_ERROR →
        ∀ c ∈ env.GroupMembers, (c.Group = pathGroup env path ∨ pathGroup env path = "") →
          c.Uuid ∈ uuids run.excludes) := by
  have hstep : downloadStep env wh path start offset s =
      ([.Select (pathGroup env path) (if s.fromSrc then pathInstance env path else "")
          s.excludes false (some m),
        .GetConnBridge m (some b),
        .SendRequest b path start offset none,
        .ReceiveResponse b (some .FILE_NOT_FOUND_ERROR),
        .ReturnConnBridge m b],
        .again ⟨s.attempt + 1, false, s.excludes ++ [m]⟩) := by
    unfold downloadStep
    simp [hsel, hconn, hsend, hrecv, ReceiveResponse, downloadHandler]
  refine ⟨hstep, ?_⟩
  obtain ⟨run, hrun⟩ := downloadPasses_terminates env wh path start offset fuel s
    (by split <;> omega)
  obtain ⟨f, rfl⟩ : ∃ f, fuel = f + 1 := ⟨fuel - 1, by omega⟩
  have h := hrun
  rw [downloadPasses_succ, hstep] at h
  simp only [Option.map_eq_some'] at h
  obtain ⟨rest, hrest, hrun_eq⟩ := h
  obtain ⟨tail, htail⟩ := downloadPasses_log_head _ _ _ _ _ _ _ _ hrest
  simp only [Bool.false_eq_true, if_false] at htail
  have hlog : run.log =
      [.Select (pathGroup env path) (if s.fromSrc then pathInstance env path else "")
          s.excludes false (some m),
        .GetConnBridge m (some b),
        .SendRequest b path start offset none,
        .ReceiveResponse b (some .FILE_NOT_FOUND_ERROR),
        .ReturnConnBridge m b,
        .Select (pathGroup env path) "" (s.excludes ++ [m]) false
          (selectStorageServer env.GroupMembers (env.attempt (s.attempt + 1)).rand
            (pathGroup env path) "" (some (s.excludes ++ [m])) false)] ++ tail := by
    rw [← hrun_eq]
    simp [htail]
  have hmem : ∀ b', Event.ReceiveResponse b' none ∈ run.log ↔
      Event.ReceiveResponse b' none ∈ tail := by
    intro b'
    rw [hlog]
    simp
  refine ⟨run, tail, hrun, hlog, ?_, ?_, ?_, ?_, ?_⟩
  · intro hnone
    have hex := downloadPasses_exhausted _ _ _ _ _ _ _ _ _ hrest hnone
    subst hex
    simp only [hnone, List.cons.injEq, true_and] at htail
    rw [← hrun_eq]
    exact ⟨htail.symm, rfl, rfl⟩
  · rcases downloadPasses_err _ _ _ _ _ _ _ _ hrun with ⟨h1, ⟨b', h2⟩, -⟩ | ⟨h1, h2, -, -⟩
    · exact ⟨fun _ => ⟨b', (hmem b').mp h2⟩, fun _ => h1⟩
    · constructor
      · intro h; rw [h1] at h; cases h
      · rintro ⟨b', hb'⟩; exact absurd ((hmem b').mpr hb') (h2 b')
  · rcases downloadPasses_err _ _ _ _ _ _ _ _ hrun with ⟨h1, ⟨b', h2⟩, -⟩ | ⟨h1, h2, -, -⟩
    · constructor
      · intro h; rw [h1] at h; cases h
      · intro h; exact absurd ((hmem b').mp h2) (h b')
    · exact ⟨fun _ b' hb' => h2 b' ((hmem b').mpr hb'), fun _ => h1⟩
  · intro herr
    rcases downloadPasses_err _ _ _ _ _ _ _ _ hrun with ⟨h1, -, -⟩ | ⟨-, -, h3, -⟩
    · rw [h1] at herr; cases herr
    · exact h3
  · intro hrand herr c hc hcg
    rcases downloadPasses_err _ _ _ _ _ _ _ _ hrun with ⟨h1, -, -⟩ | ⟨-, -, -, k, hk⟩
    · rw [h1] at herr; cases herr
    · exact excluded_of_select_none _ _ (hrand k) _ _ _ hk c hc hcg (Or.inr rfl)

/-- Witness of the amended C4: `download` over the two member registry whose
first server answers NOT_FOUND; the log goes on with the selector call of the
retry, which runs with the first server excluded. -/
theorem download_not_found_retries_witness :
    ∃ run tail,
      download notFoundEnv "/groupA/inst1/S/abc123" 0 0 false [] drainHandler = some run ∧
      run.log =
        [.Select "groupA" "" [] false (some memberInst1),
          .GetConnBridge memberInst1 (some 1),
          .SendRequest 1 "/groupA/inst1/S/abc123" 0 0 none,
          .ReceiveResponse 1 (some .FILE_NOT_FOUND_ERROR),
          .ReturnConnBridge memberInst1 1,
          .Select "groupA" "" [memberInst1] false (some memberInst2)] ++ tail ∧
      (run.err = none ↔ ∃ b', Event.ReceiveResponse b' none ∈ tail) :=
  let ⟨run, tail, h1, h2, _, h3, _⟩ :=
    (download_not_found_retries notFoundEnv drainHandler "/groupA/inst1/S/abc123" 0 0
      ⟨0, false, []⟩ memberInst1 1 0 4 (by decide) rfl rfl rfl (by decide)).2
  ⟨run, tail, h1, h2, h3⟩

/-- Counterexample to C5 as stated: the response is OK with a body of ten
bytes and the writer handler reads three of them, once failing and once
returning nil; both times the bridge is handed to `ReturnConnBridge` and not
to `ReturnBrokenConnBridge`. -/
theorem download_short_read_counterexample :
    (download shortReadEnv "/groupA/inst1/S/abc123" 0 0 false [] failingHandler).map
        (fun run => (decide (Event.WriterHandler 7 10 3 (some (.New "disk full")) ∈ run.log),
          decide (Event.ReturnConnBridge memberInst1 7 ∈ run.log),
          decide (Event.ReturnBrokenConnBridge memberInst1 7 ∈ run.log))) =
      some (true, true, false) ∧
    (download shortReadEnv "/groupA/inst1/S/abc123" 0 0 false [] lazyHandler).map
        (fun run => (decide (Event.WriterHandler 7 10 3 none ∈ run.log),
          decide (Event.ReturnConnBridge memberInst1 7 ∈ run.log),
          decide (Event.ReturnBrokenConnBridge memberInst1 7 ∈ run.log))) =
      some (true, true, false) := by
  decide

/-- C5, amended. When the response status is OK, whatever number of body bytes
the writer handler consumes and whatever it returns, `download` hands the
bridge of the exchange to `ReturnConnBridge` and not to
`ReturnBrokenConnBridge`; it then returns nil when the handler returned nil and
retries on another server when the handler returned an error. -/
theorem download_ok_returns_healthy (env : DownloadEnv) (wh : WriterHandler) (path : String)
    (start offset : Int) (s : DownloadState) (m : StorageDO) (b : Bridge) (n : Nat)
    (hsel : selectStorageServer env.GroupMembers (env.attempt s.attempt).rand
      (pathGroup env path) (if s.fromSrc then pathInstance env path else "")
      (some s.excludes) false = some m)
    (hconn : (env.attempt s.attempt).GetConnBridge m = .ok b)
    (hsend : (env.attempt s.attempt).SendRequest = none)
    (hrecv : (env.attempt s.attempt).Receive = .frame ⟨none, .ok ⟨STATUS_OK⟩, n⟩) :
    downloadStep env wh path start offset s =
      ([.Select (pathGroup env path) (if s.fromSrc then pathInstance env path else "")
          s.excludes false (some m),
        .GetConnBridge m (some b),
        .SendRequest b path start offset none,
        .WriterHandler b n (wh path n b).consumed (wh path n b).err,
        .ReceiveResponse b (wh path n b).err,
        .ReturnConnBridge m b],
        match (wh path n b).err with
        | none => .ret none (s.excludes ++ [m])
        | some _ => .again ⟨s.attempt + 1, false, s.excludes ++ [m]⟩) ∧
    Event.ReturnBrokenConnBridge m b ∉ (downloadStep env wh path start offset s).1 := by
  have hne : ¬ STATUS_OK = STATUS_NOT_FOUND := by decide
  have hstep : downloadStep env wh path start offset s =
      ([.Select (pathGroup env path) (if s.fromSrc then pathInstance env path else "")
          s.excludes false (some m),
        .GetConnBridge m (some b),
        .SendRequest b path start offset none,
        .WriterHandler b n (wh path n b).consumed (wh path n b).err,
        .ReceiveResponse b (wh path n b).err,
        .ReturnConnBridge m b],
        match (wh path n b).err with
        | none => .ret none (s.excludes ++ [m])
        | some _ => .again ⟨s.attempt + 1, false, s.excludes ++ [m]⟩) := by
    unfold downloadStep
    cases hw : (wh path n b).err <;>
      simp [hsel, hconn, hsend, hrecv, ReceiveResponse, downloadHandler, hne, hw]
  refine ⟨hstep, ?_⟩
  rw [hstep]
  simp

/-- Witness of the amended C5: the pass in which the handler reads three of
ten bytes and fails. -/
theorem download_ok_returns_healthy_witness :
    Event.ReturnBrokenConnBridge memberInst1 7 ∉
      (downloadStep shortReadEnv failingHandler "/groupA/inst1/S/abc123" 0 0 ⟨0, false, []⟩).1 :=
  (download_ok_returns_healthy shortReadEnv failingHandler "/groupA/inst1/S/abc123" 0 0
    ⟨0, false, []⟩ memberInst1 7 10 (by decide) rfl rfl rfl).2

/-! ## The exclusion list of a download holds a server twice -/

/-- C9 fails on the code: with one live member whose pool has no connection
left, `DownloadFile` pushes the member at line 249 and again at line 272, so
the next selector call runs with, and the call returns with, an exclusion list
that holds the same UUID twice. -/
theorem DownloadFile_excludes_duplicate :
    (DownloadFile poolFailEnv "/groupA/inst1/S/abc123" 0 0 drainHandler).map
        (fun run => (run.err, selects run.log, run.excludes,
          decide ((uuids run.excludes).Nodup))) =
      some (some .NO_STORAGE_ERROR,
        [([], some memberInst1), ([memberInst1, memberInst1], none)],
        [memberInst1, memberInst1], false) := by
  decide

end libclient

namespace libclient

/-! ## Upload: the select loop returns and keeps its exclusion list duplicate-free -/

theorem uploadSelect_terminates (env : UploadEnv) (group : String) (fuel : Nat) :
    ∀ (k : Nat) (ex : List StorageDO), free env.GroupMembers ex + 1 ≤ fuel →
      ∃ r, uploadSelect env group fuel k ex = some r := by
  induction fuel with
  | zero => intro k ex h; omega
  | succ fuel ih =>
    intro k ex h
    unfold uploadSelect
    simp only
    cases hsel : selectStorageServer env.GroupMembers (env.attempt k).rand group ""
        (some ex) true with
    | none => exact ⟨_, rfl⟩
    | some m =>
      have hp := selectStorageServer_eq_some _ _ _ _ _ _ _ hsel
      have hc : containsMember m (some ex) = false := by
        have := ((picks_iff _ _ _ _ _).mp hp.2).1
        exact (containsMember_eq_false_iff _ _).mpr this
      have hlt := free_push_lt env.GroupMembers ex [m] m hp.1 hc (by simp)
      obtain ⟨r, hr⟩ := ih (k + 1) (ex ++ [m]) (by omega)
      cases hconn : (env.attempt k).Connect with
      | some e1 => simp only [hr, Option.map_some']; exact ⟨_, rfl⟩
      | none =>
        cases hval : (env.attempt k).Validate with
        | some e2 => simp only [hr, Option.map_some']; exact ⟨_, rfl⟩
        | none => exact ⟨_, rfl⟩

theorem Upload_returns (env : UploadEnv) (path group : String) (skipCheck : Bool) :
    ∃ run, Upload env path group skipCheck = some run := by
  unfold Upload
  cases env.GetFile path with
  | error e => exact ⟨_, rfl⟩
  | ok fi =>
    simp only
    split
    · exact ⟨_, rfl⟩
    · obtain ⟨r, hr⟩ := uploadSelect_terminates env group (env.GroupMembers.length + 1) 0 []
        (by have := free_le_length env.GroupMembers []; omega)
      obtain ⟨log, excludes, member⟩ := r
      rw [hr]
      cases member with
      | none => exact ⟨_, rfl⟩
      | some m => exact ⟨_, rfl⟩

theorem uploadSelect_nodup (env : UploadEnv) (group : String) (fuel : Nat) :
    ∀ (k : Nat) (ex : List StorageDO) (r : List Event × List StorageDO × Option StorageDO),
      (uuids ex).Nodup → uploadSelect env group fuel k ex = some r →
      (uuids r.2.1).Nodup ∧ ∀ x ∈ selects r.1, (uuids x.1).Nodup := by
  induction fuel with
  | zero => intro k ex r _ h; cases h
  | succ fuel ih =>
    intro k ex r hnd h
    unfold uploadSelect at h
    simp only at h
    cases hsel : selectStorageServer env.GroupMembers (env.attempt k).rand group ""
        (some ex) true with
    | none =>
      rw [hsel] at h
      simp only [Option.some.injEq] at h
      subst h
      exact ⟨hnd, by simpa [selects] using hnd⟩
    | some m =>
      rw [hsel] at h
      simp only at h
      have hp := selectStorageServer_eq_some _ _ _ _ _ _ _ hsel
      have hc : containsMember m (some ex) = false :=
        (containsMember_eq_false_iff _ _).mpr ((picks_iff _ _ _ _ _).mp hp.2).1
      have hnd' : (uuids (ex ++ [m])).Nodup := by
        rw [uuids_append, List.nodup_append]
        refine ⟨hnd, by simp [uuids], ?_⟩
        intro u hu hu'
        simp only [uuids, List.map_cons, List.map_nil, List.mem_singleton] at hu'
        subst hu'
        rw [← containsMember_iff_mem_uuids, hc] at hu
        cases hu
      cases hconn : (env.attempt k).Connect with
      | some e1 =>
        rw [hconn] at h
        simp only [Option.map_eq_some'] at h
        obtain ⟨r', hr', rfl⟩ := h
        obtain ⟨h1, h2⟩ := ih _ _ _ hnd' hr'
        refine ⟨h1, ?_⟩
        intro x hx
        simp only [List.cons_append, selects_cons_select, selects_append, selects,
          List.nil_append, List.mem_cons] at hx
        rcases hx with rfl | hx
        · exact hnd
        · exact h2 x hx
      | none =>
        rw [hconn] at h
        simp only at h
        cases hval : (env.attempt k).Validate with
        | some e2 =>
          rw [hval] at h
          simp only [Option.map_eq_some'] at h
          obtain ⟨r', hr', rfl⟩ := h
          obtain ⟨h1, h2⟩ := ih _ _ _ hnd' hr'
          refine ⟨h1, ?_⟩
          intro x hx
          simp only [List.cons_append, selects_cons_select, selects_append, selects,
            List.nil_append, List.mem_cons] at hx
          rcases hx with rfl | hx
          · exact hnd
          · exact h2 x hx
        | none =>
          rw [hval] at h
          simp only [Option.some.injEq] at h
          subst h
          exact ⟨hnd, by simpa [selects] using hnd⟩

end libclient
